import Mathlib

/-!
Verification of the Spendabo backend core (personal-finance ingestion and
categorization engine).  The TypeScript services are shallowly embedded as
executable Lean functions: monetary amounts are signed integers (cents),
confidences are rationals, Firestore collections are association lists, and
the effectful service entry points become pure state-passing functions.
External primitives that the claims do not depend on pointwise (the sha256
digest, the JavaScript regular-expression engine, base64/JSON decoding,
JavaScript Date parsing and parseFloat) are taken as explicit function
parameters, so every theorem quantifies over their behaviour; instant-valued
timestamp bookkeeping fields (createdAt, updatedAt, explainability.timestamp)
are omitted from the embedding because no claim mentions them.
-/

namespace Spendabo

/-! ## String helpers (JavaScript string primitives on ASCII data) -/

/-- ASCII uppercasing of one character; models what JS toUpperCase does on the
ASCII payloads (merchant names, descriptions) the backend handles. -/
def upChar (c : Char) : Char :=
  if 'a' ≤ c ∧ c ≤ 'z' then Char.ofNat (c.toNat - 32) else c

/-- Models String.prototype.toUpperCase restricted to ASCII. -/
def jsToUpper (s : String) : String := ⟨s.data.map upChar⟩

/-- ASCII lowercasing of one character. -/
def downChar (c : Char) : Char :=
  if 'A' ≤ c ∧ c ≤ 'Z' then Char.ofNat (c.toNat + 32) else c

/-- Models String.prototype.toLowerCase restricted to ASCII. -/
def jsToLower (s : String) : String := ⟨s.data.map downChar⟩

/-- Whether the second list is a prefix of the first (Boolean, structural). -/
def hasPrefixCL : List Char → List Char → Bool
  | _, [] => true
  | [], _ :: _ => false
  | c :: cs, p :: ps => c == p && hasPrefixCL cs ps

/-- Whether the second list occurs contiguously inside the first. -/
def hasSubCL : List Char → List Char → Bool
  | [], pat => pat.isEmpty
  | c :: cs, pat => hasPrefixCL (c :: cs) pat || hasSubCL cs pat

/-- Models String.prototype.includes. -/
def strIncludes (s pat : String) : Bool := hasSubCL s.data pat.data

/-- JavaScript truthiness of an optional string: null/undefined and the empty
string are falsy. -/
def truthyStr : Option String → Bool
  | none => false
  | some s => decide (s ≠ "")

example : jsToUpper "Starbucks #12" = "STARBUCKS #12" := rfl
example : strIncludes "STARBUCKS COFFEE" "BUCK" = true := rfl
example : strIncludes "ABC" "AC" = false := rfl

/-! ## Rule engine (src/backend/src/services/rule-engine.ts) -/

/-- The four textual match kinds of the rule engine. -/
inductive MatchType
  | exact
  | contains
  | regex
  | description
deriving DecidableEq, Repr

/-- Conditions bag of a rule (types/index.ts, RuleConditions).  A missing
optional field is none; JS truthiness applies to the string fields. -/
structure RuleConditions where
  merchantExact : Option String := none
  merchantContains : Option String := none
  merchantRegex : Option String := none
  descriptionContains : Option String := none
  amountMin : Option Int := none
  amountMax : Option Int := none
  accountId : Option String := none
deriving DecidableEq, Repr

/-- Action of a rule (types/index.ts, RuleAction). -/
structure RuleAction where
  categoryId : String
  addTags : Option (List String) := none
deriving DecidableEq, Repr

/-- The slice of a Rule document that the engine reads (id, name, enabled,
priority, conditions, action); statistics and timestamps are omitted. -/
structure Rule where
  id : String
  name : String
  enabled : Bool
  priority : Int
  conditions : RuleConditions
  action : RuleAction
deriving DecidableEq, Repr

/-- The slice of a Transaction that matchRule and the orchestrator read. -/
structure TxInput where
  merchantNormalized : String
  description : String
  amount : Int
  accountId : String
  merchantRaw : String := ""
deriving DecidableEq, Repr

/-- Result of matchRule: either no match, or a textual match carrying the
match type, matched value and matched pattern. -/
inductive RuleMatchResult
  | noMatch
  | hit (matchType : MatchType) (matchedValue matchedPattern : String)
deriving DecidableEq, Repr

/-- Whether a RuleMatchResult is a match. -/
def RuleMatchResult.isHit : RuleMatchResult → Bool
  | .noMatch => false
  | .hit _ _ _ => true

/-- Confidence by match type (rule-engine.ts getConfidence): exact 1.0,
contains 0.8, regex 0.6, description 0.5, otherwise 0. -/
def getConfidence : Option MatchType → ℚ
  | some .exact => 1
  | some .contains => 0.8
  | some .regex => 0.6
  | some .description => 0.5
  | none => 0

/-- The textual part of matchRule (steps 3-6): merchantExact, then
merchantContains, then merchantRegex, then descriptionContains, returning at
the first textual hit.  The regular-expression engine is the parameter rx:
rx pattern subject is some m when the case-insensitive regex built from
pattern matches subject with first matched substring m, and none when it does
not match or the pattern fails to compile (the catch branch of the source). -/
def textualMatch (rx : String → String → Option String) (t : TxInput)
    (c : RuleConditions) : RuleMatchResult :=
  if truthyStr c.merchantExact &&
      (t.merchantNormalized == jsToUpper (c.merchantExact.getD "")) then
    .hit .exact t.merchantNormalized (jsToUpper (c.merchantExact.getD ""))
  else if truthyStr c.merchantContains &&
      strIncludes t.merchantNormalized (jsToUpper (c.merchantContains.getD "")) then
    .hit .contains t.merchantNormalized (jsToUpper (c.merchantContains.getD ""))
  else
    match (if truthyStr c.merchantRegex then
            rx (c.merchantRegex.getD "") t.merchantNormalized else none) with
    | some m0 => .hit .regex m0 (c.merchantRegex.getD "")
    | none =>
      if truthyStr c.descriptionContains &&
          strIncludes (jsToUpper t.description)
            (jsToUpper (c.descriptionContains.getD "")) then
        .hit .description t.description (jsToUpper (c.descriptionContains.getD ""))
      else .noMatch

/-- matchRule (rule-engine.ts): the accountId equality gate, the inclusive
amountMin/amountMax gates, then the textual conditions in fixed order. -/
def matchRule (rx : String → String → Option String) (t : TxInput)
    (c : RuleConditions) : RuleMatchResult :=
  if truthyStr c.accountId && (t.accountId != c.accountId.getD "") then .noMatch
  else if c.amountMin.elim false (fun m => decide (t.amount < m)) then .noMatch
  else if c.amountMax.elim false (fun m => decide (t.amount > m)) then .noMatch
  else textualMatch rx t c

/-- Reasons recorded in an Explainability payload (types/index.ts). -/
inductive Reason
  | rule_match
  | llm
  | manual
  | no_match
  | default_
  | split
deriving DecidableEq, Repr

/-- Explainability payload (types/index.ts); the instant-valued timestamp
field is omitted. -/
structure Explainability where
  reason : Reason
  ruleId : Option String := none
  ruleName : Option String := none
  matchType : Option MatchType := none
  matchedValue : Option String := none
  matchedPattern : Option String := none
  confidence : ℚ
  llmModel : Option String := none
  llmReasoning : Option String := none
deriving DecidableEq, Repr

/-- Result of categorizeWithRules (types/index.ts, CategorizationResult). -/
structure CategorizationResult where
  categoryId : Option String
  tags : List String
  explainability : Explainability
deriving DecidableEq, Repr

/-- The result built from the first matching rule inside the scan loop of
categorizeWithRules. -/
def resultOfRule (r : Rule) (m : RuleMatchResult) : CategorizationResult :=
  match m with
  | .hit ty v p =>
    { categoryId := some r.action.categoryId
      tags := r.action.addTags.getD []
      explainability :=
        { reason := .rule_match
          ruleId := some r.id
          ruleName := some r.name
          matchType := some ty
          matchedValue := some v
          matchedPattern := some p
          confidence := getConfidence (some ty) } }
  | .noMatch =>
    { categoryId := none
      tags := []
      explainability := { reason := .no_match, confidence := 0 } }

/-- The no-match fallback result of categorizeWithRules. -/
def noMatchResult : CategorizationResult :=
  { categoryId := none
    tags := []
    explainability := { reason := .no_match, confidence := 0 } }

/-- Stable insertion of a rule into a list sorted by descending priority; a
rule is placed before the first strictly lower-priority rule, so rules of
equal priority keep their relative order, mirroring the stable JS sort with
comparator (a, b) => b.priority - a.priority. -/
def insertByPriority (r : Rule) : List Rule → List Rule
  | [] => [r]
  | s :: ss =>
    if r.priority > s.priority then r :: s :: ss else s :: insertByPriority r ss

/-- Stable sort of rules by priority descending. -/
def sortByPriorityDesc : List Rule → List Rule
  | [] => []
  | r :: rs => insertByPriority r (sortByPriorityDesc rs)

/-- The scan loop of categorizeWithRules: first matching rule wins. -/
def scanRules (rx : String → String → Option String) (t : TxInput) :
    List Rule → CategorizationResult
  | [] => noMatchResult
  | r :: rs =>
    match matchRule rx t r.conditions with
    | .hit ty v p => resultOfRule r (.hit ty v p)
    | .noMatch => scanRules rx t rs

/-- categorizeWithRules (rule-engine.ts): filter to enabled rules, sort by
priority descending, scan for the first match. -/
def categorizeWithRules (rx : String → String → Option String) (t : TxInput)
    (rules : List Rule) : CategorizationResult :=
  scanRules rx t (sortByPriorityDesc (rules.filter (·.enabled)))

/-- Boolean conjunction of the three non-textual gates of matchRule holding
(account filter passes, amount within the inclusive bounds). -/
def gatesPassB (t : TxInput) (c : RuleConditions) : Bool :=
  !(truthyStr c.accountId && (t.accountId != c.accountId.getD "")) &&
  !(c.amountMin.elim false (fun m => decide (t.amount < m))) &&
  !(c.amountMax.elim false (fun m => decide (t.amount > m)))

theorem matchRule_eq_textual {t : TxInput} {c : RuleConditions}
    (rx : String → String → Option String) (h : gatesPassB t c = true) :
    matchRule rx t c = textualMatch rx t c := by
  simp only [gatesPassB, Bool.and_eq_true, Bool.not_eq_true'] at h
  simp [matchRule, h.1.1, h.1.2, h.2]

theorem scanRules_eq_find (rx : String → String → Option String) (t : TxInput)
    (l : List Rule) :
    scanRules rx t l =
      (l.find? (fun r => (matchRule rx t r.conditions).isHit)).elim
        noMatchResult (fun r => resultOfRule r (matchRule rx t r.conditions)) := by
  induction l with
  | nil => rfl
  | cons r rs ih =>
    rw [scanRules, List.find?]
    cases h : matchRule rx t r.conditions with
    | noMatch => simpa [RuleMatchResult.isHit, h] using ih
    | hit ty v p => simp [RuleMatchResult.isHit, h, resultOfRule]

theorem insertByPriority_perm (r : Rule) (l : List Rule) :
    (insertByPriority r l).Perm (r :: l) := by
  induction l with
  | nil => exact List.Perm.refl _
  | cons s ss ih =>
    rw [insertByPriority]
    by_cases h : r.priority > s.priority
    · simp [h]
    · simpa [h] using (ih.cons s).trans (List.Perm.swap r s ss)

theorem sortByPriorityDesc_perm (l : List Rule) :
    (sortByPriorityDesc l).Perm l := by
  induction l with
  | nil => exact List.Perm.refl _
  | cons r rs ih =>
    exact (insertByPriority_perm r (sortByPriorityDesc rs)).trans (ih.cons r)

theorem insertByPriority_sorted {r : Rule} {l : List Rule}
    (h : l.Sorted (fun a b => a.priority ≥ b.priority)) :
    (insertByPriority r l).Sorted (fun a b => a.priority ≥ b.priority) := by
  induction l with
  | nil => simp [insertByPriority]
  | cons s ss ih =>
    rw [insertByPriority]
    rw [List.sorted_cons] at h
    by_cases hp : r.priority > s.priority
    · rw [if_pos hp, List.sorted_cons]
      refine ⟨?_, List.sorted_cons.mpr h⟩
      intro b hb
      rcases List.mem_cons.mp hb with hb | hb
      · exact hb ▸ le_of_lt hp
      · exact le_trans (h.1 b hb) (le_of_lt hp)
    · rw [if_neg hp, List.sorted_cons]
      refine ⟨?_, ih h.2⟩
      intro b hb
      rcases List.mem_cons.mp ((insertByPriority_perm r ss).mem_iff.mp hb)
        with hb | hb
      · exact hb ▸ le_of_not_lt hp
      · exact h.1 b hb

theorem sortByPriorityDesc_sorted (l : List Rule) :
    (sortByPriorityDesc l).Sorted (fun a b => a.priority ≥ b.priority) := by
  induction l with
  | nil => simp [sortByPriorityDesc]
  | cons r rs ih => exact insertByPriority_sorted ih

/-- C1: categorizeWithRules considers only the enabled rules, in descending
priority order, and returns the action of the first rule whose conditions
match (no-match fallback otherwise); matchRule applies the accountId gate,
the inclusive amount gates, then the textual conditions in the fixed order
merchantExact, merchantContains, merchantRegex, descriptionContains,
short-circuiting at the first textual hit; the match type determines the
confidence (exact 1.0, contains 0.8, regex 0.6, description 0.5); and a rule
whose conditions carry no textual condition matches no transaction. -/
theorem rule_engine_first_match_C1
    (rx : String → String → Option String) (t : TxInput) (rules : List Rule) :
    ((sortByPriorityDesc (rules.filter (·.enabled))).Perm
        (rules.filter (·.enabled)) ∧
      (sortByPriorityDesc (rules.filter (·.enabled))).Sorted
        (fun a b => a.priority ≥ b.priority) ∧
      categorizeWithRules rx t rules =
        ((sortByPriorityDesc (rules.filter (·.enabled))).find?
            (fun r => (matchRule rx t r.conditions).isHit)).elim
          noMatchResult
          (fun r => resultOfRule r (matchRule rx t r.conditions))) ∧
    (∀ r : Rule, ∀ ty v p, matchRule rx t r.conditions = .hit ty v p →
      resultOfRule r (.hit ty v p) =
        { categoryId := some r.action.categoryId
          tags := r.action.addTags.getD []
          explainability :=
            { reason := .rule_match
              ruleId := some r.id
              ruleName := some r.name
              matchType := some ty
              matchedValue := some v
              matchedPattern := some p
              confidence := getConfidence (some ty) } }) ∧
    (∀ c : RuleConditions,
      (truthyStr c.accountId = true → t.accountId ≠ c.accountId.getD "" →
        matchRule rx t c = .noMatch) ∧
      (∀ m, c.amountMin = some m → t.amount < m → matchRule rx t c = .noMatch) ∧
      (∀ m, c.amountMax = some m → t.amount > m → matchRule rx t c = .noMatch) ∧
      (gatesPassB t c = true →
        truthyStr c.merchantExact = true →
        t.merchantNormalized = jsToUpper (c.merchantExact.getD "") →
        matchRule rx t c =
          .hit .exact t.merchantNormalized (jsToUpper (c.merchantExact.getD ""))) ∧
      (gatesPassB t c = true →
        (truthyStr c.merchantExact &&
          (t.merchantNormalized == jsToUpper (c.merchantExact.getD ""))) = false →
        truthyStr c.merchantContains = true →
        strIncludes t.merchantNormalized
          (jsToUpper (c.merchantContains.getD "")) = true →
        matchRule rx t c =
          .hit .contains t.merchantNormalized
            (jsToUpper (c.merchantContains.getD ""))) ∧
      (∀ m0, gatesPassB t c = true →
        (truthyStr c.merchantExact &&
          (t.merchantNormalized == jsToUpper (c.merchantExact.getD ""))) = false →
        (truthyStr c.merchantContains &&
          strIncludes t.merchantNormalized
            (jsToUpper (c.merchantContains.getD ""))) = false →
        truthyStr c.merchantRegex = true →
        rx (c.merchantRegex.getD "") t.merchantNormalized = some m0 →
        matchRule rx t c = .hit .regex m0 (c.merchantRegex.getD "")) ∧
      (gatesPassB t c = true →
        (truthyStr c.merchantExact &&
          (t.merchantNormalized == jsToUpper (c.merchantExact.getD ""))) = false →
        (truthyStr c.merchantContains &&
          strIncludes t.merchantNormalized
            (jsToUpper (c.merchantContains.getD ""))) = false →
        (truthyStr c.merchantRegex = false ∨
          rx (c.merchantRegex.getD "") t.merchantNormalized = none) →
        truthyStr c.descriptionContains = true →
        strIncludes (jsToUpper t.description)
          (jsToUpper (c.descriptionContains.getD "")) = true →
        matchRule rx t c =
          .hit .description t.description
            (jsToUpper (c.descriptionContains.getD ""))) ∧
      (truthyStr c.merchantExact = false →
        truthyStr c.merchantContains = false →
        truthyStr c.merchantRegex = false →
        truthyStr c.descriptionContains = false →
        matchRule rx t c = .noMatch)) ∧
    (getConfidence (some .exact) = 1 ∧ getConfidence (some .contains) = 0.8 ∧
      getConfidence (some .regex) = 0.6 ∧
      getConfidence (some .description) = 0.5 ∧ getConfidence none = 0) := by
  refine ⟨⟨sortByPriorityDesc_perm _, sortByPriorityDesc_sorted _,
    scanRules_eq_find rx t _⟩, ?_, ?_, by norm_num [getConfidence]⟩
  · intro r ty v p _
    rfl
  · intro c
    refine ⟨?_, ?_, ?_, ?_, ?_, ?_, ?_, ?_⟩
    · intro ha hne
      simp [matchRule, ha, hne]
    · intro m hm hlt
      rw [matchRule]
      split
      · rfl
      · rw [if_pos (by simp [hm, hlt])]
    · intro m hm hgt
      rw [matchRule]
      split
      · rfl
      · split
        · rfl
        · rw [if_pos (by simp [hm, hgt])]
    · intro hg he hv
      rw [matchRule_eq_textual rx hg, textualMatch,
        if_pos (by simp [he, hv])]
    · intro hg hex hc hinc
      rw [matchRule_eq_textual rx hg, textualMatch, if_neg (by simp [hex]),
        if_pos (by simp [hc, hinc])]
    · intro m0 hg hex hcon hr hrx
      rw [matchRule_eq_textual rx hg, textualMatch, if_neg (by simp [hex]),
        if_neg (by simp [hcon])]
      simp [hr, hrx]
    · intro hg hex hcon hr hd hinc
      rw [matchRule_eq_textual rx hg, textualMatch, if_neg (by simp [hex]),
        if_neg (by simp [hcon])]
      rcases hr with hr | hr
      · simp [hr, hd, hinc]
      · rcases h : truthyStr c.merchantRegex with _ | _
        · simp [h, hd, hinc]
        · simp [h, hr, hd, hinc]
    · intro h1 h2 h3 h4
      rw [matchRule]
      split
      · rfl
      · split
        · rfl
        · split
          · rfl
          · rw [textualMatch, if_neg (by simp [h1]), if_neg (by simp [h2])]
            simp [h3, h4]

/-- Witness for C1: at a concrete transaction, a conditions bag carrying only
the inclusive amount gates matches nothing, and a merchantExact condition hits
with match type exact. -/
theorem rule_engine_first_match_C1_witness :
    matchRule (fun _ _ => none)
        { merchantNormalized := "STARBUCKS", description := "COFFEE",
          amount := -500, accountId := "acct1" }
        { amountMin := some (-1000), amountMax := some 0 } = .noMatch ∧
    matchRule (fun _ _ => none)
        { merchantNormalized := "STARBUCKS", description := "COFFEE",
          amount := -500, accountId := "acct1" }
        { merchantExact := some "starbucks" } =
      .hit .exact "STARBUCKS" "STARBUCKS" :=
  ⟨((rule_engine_first_match_C1 (fun _ _ => none)
      { merchantNormalized := "STARBUCKS", description := "COFFEE",
        amount := -500, accountId := "acct1" } []).2.2.1
      { amountMin := some (-1000), amountMax := some 0 }).2.2.2.2.2.2.2
      (by decide) (by decide) (by decide) (by decide),
   ((rule_engine_first_match_C1 (fun _ _ => none)
      { merchantNormalized := "STARBUCKS", description := "COFFEE",
        amount := -500, accountId := "acct1" } []).2.2.1
      { merchantExact := some "starbucks" }).2.2.2.1
      (by decide) (by decide) (by decide)⟩

/-! ## Categorization orchestrator (services/categorization-orchestrator.ts) -/

/-- Minimum rule-match confidence that skips the LLM. -/
def RULE_CONFIDENCE_THRESHOLD : ℚ := 0.7

/-- Structured result of LLM.classifyTransaction as consumed by the
orchestrator. -/
structure LLMResult where
  categoryId : Option String
  confidence : ℚ
  reasoning : String
deriving DecidableEq, Repr

/-- CategorizationOptions: useLLM overrides the environment flag (nullish
coalescing), forceRulesOnly skips the LLM entirely. -/
structure CategorizationOptions where
  useLLM : Option Bool := none
  forceRulesOnly : Bool := false
deriving DecidableEq, Repr

/-- FullCategorizationResult of the orchestrator. -/
structure FullCategorizationResult where
  categoryId : Option String
  tags : List String
  explainability : Explainability
  usedLLM : Bool
deriving DecidableEq, Repr

/-- One orchestrator call together with its observable side channel: the
ruleId whose matchCount increment was enqueued (updateRuleStats is called
fire-and-forget exactly in the accept branch, when the explainability carries
a truthy ruleId). -/
structure OrchestratorStep where
  result : FullCategorizationResult
  ruleStatBump : Option String
deriving DecidableEq, Repr

/-- The shouldUseLLM flag of the orchestrator:
not forceRulesOnly and (useLLM nullish-coalesced with the environment flag). -/
def shouldUseLLMFlag (llmEnabled : Bool) (o : CategorizationOptions) : Bool :=
  !o.forceRulesOnly && o.useLLM.getD llmEnabled

/-- The hardcoded model string recorded on LLM results. -/
def LLM_MODEL_NAME : String := "claude-sonnet-4-20250514"

/-- categorizeTransaction (categorization-orchestrator.ts): run the rule
engine; accept its result when categoryId is non-null and confidence is at
least the 0.7 threshold (enqueueing the rule-stat bump); otherwise fall back
to the LLM when enabled.  The llm argument is the outcome of
categorizeWithLLM: none when the call throws, some r when it returns r. -/
def categorizeTransaction (rx : String → String → Option String)
    (rules : List Rule) (llmEnabled : Bool) (o : CategorizationOptions)
    (llm : Option LLMResult) (t : TxInput) : OrchestratorStep :=
  let ruleResult := categorizeWithRules rx t rules
  if ruleResult.categoryId ≠ none ∧
      RULE_CONFIDENCE_THRESHOLD ≤ ruleResult.explainability.confidence then
    { result :=
        { categoryId := ruleResult.categoryId, tags := ruleResult.tags,
          explainability := ruleResult.explainability, usedLLM := false }
      ruleStatBump :=
        if truthyStr ruleResult.explainability.ruleId then
          ruleResult.explainability.ruleId
        else none }
  else if !(shouldUseLLMFlag llmEnabled o) then
    { result :=
        { categoryId := ruleResult.categoryId, tags := ruleResult.tags,
          explainability := ruleResult.explainability, usedLLM := false }
      ruleStatBump := none }
  else
    match llm with
    | none =>
      { result :=
          { categoryId := ruleResult.categoryId, tags := ruleResult.tags,
            explainability := ruleResult.explainability, usedLLM := false }
        ruleStatBump := none }
    | some lr =>
      if lr.categoryId ≠ none then
        { result :=
            { categoryId := lr.categoryId, tags := []
              explainability :=
                { reason := .llm, confidence := lr.confidence,
                  llmModel := some LLM_MODEL_NAME,
                  llmReasoning := some lr.reasoning }
              usedLLM := true }
          ruleStatBump := none }
      else
        { result :=
            { categoryId := none, tags := []
              explainability :=
                { reason := .no_match, confidence := 0,
                  llmReasoning := some lr.reasoning }
              usedLLM := true }
          ruleStatBump := none }

theorem scanRules_matched (rx : String → String → Option String) (t : TxInput)
    (l : List Rule) (h : (scanRules rx t l).categoryId ≠ none) :
    ∃ r ∈ l, (scanRules rx t l).explainability.ruleId = some r.id ∧
      (scanRules rx t l).explainability.reason = .rule_match := by
  induction l with
  | nil => simp [scanRules, noMatchResult] at h
  | cons r rs ih =>
    rw [scanRules] at h ⊢
    cases hm : matchRule rx t r.conditions with
    | noMatch =>
      rw [hm] at h
      obtain ⟨r', hr', h1, h2⟩ := ih h
      exact ⟨r', List.mem_cons_of_mem r hr', h1, h2⟩
    | hit ty v p =>
      exact ⟨r, List.mem_cons_self r rs, rfl, rfl⟩

theorem categorizeWithRules_matched (rx : String → String → Option String)
    (t : TxInput) (rules : List Rule)
    (h : (categorizeWithRules rx t rules).categoryId ≠ none) :
    ∃ r ∈ rules,
      (categorizeWithRules rx t rules).explainability.ruleId = some r.id ∧
      (categorizeWithRules rx t rules).explainability.reason = .rule_match := by
  obtain ⟨r, hr, h1, h2⟩ := scanRules_matched rx t _ h
  refine ⟨r, ?_, h1, h2⟩
  exact List.mem_of_mem_filter ((sortByPriorityDesc_perm _).mem_iff.mp hr)

/-- C2: the rule result is accepted (its matchCount bump enqueued) and
returned with reason rule_match exactly when its categoryId is non-null and
its confidence is at least 0.7; when the gate fails and the LLM is disabled
the rule result is returned as-is; when the LLM is invoked and yields a
non-null categoryId the returned result has reason llm with llmModel set;
otherwise a null categoryId with confidence 0 and reason no_match is
returned, preserving the reasoning of the LLM.  The hypothesis that rule ids
are nonempty reflects that Firestore document ids are never empty. -/
theorem orchestrator_confidence_gate_C2
    (rx : String → String → Option String) (rules : List Rule)
    (llmEnabled : Bool) (o : CategorizationOptions) (llm : Option LLMResult)
    (t : TxInput) (hId : ∀ r ∈ rules, r.id ≠ "") :
    ((categorizeWithRules rx t rules).categoryId ≠ none ∧
        RULE_CONFIDENCE_THRESHOLD ≤
          (categorizeWithRules rx t rules).explainability.confidence →
      (categorizeTransaction rx rules llmEnabled o llm t).result =
        { categoryId := (categorizeWithRules rx t rules).categoryId
          tags := (categorizeWithRules rx t rules).tags
          explainability := (categorizeWithRules rx t rules).explainability
          usedLLM := false } ∧
      (categorizeTransaction rx rules llmEnabled o llm
          t).result.explainability.reason = .rule_match ∧
      (categorizeTransaction rx rules llmEnabled o llm t).ruleStatBump =
        (categorizeWithRules rx t rules).explainability.ruleId ∧
      (categorizeTransaction rx rules llmEnabled o llm t).ruleStatBump ≠
        none) ∧
    (¬((categorizeWithRules rx t rules).categoryId ≠ none ∧
        RULE_CONFIDENCE_THRESHOLD ≤
          (categorizeWithRules rx t rules).explainability.confidence) →
      (categorizeTransaction rx rules llmEnabled o llm t).ruleStatBump =
        none) ∧
    (¬((categorizeWithRules rx t rules).categoryId ≠ none ∧
        RULE_CONFIDENCE_THRESHOLD ≤
          (categorizeWithRules rx t rules).explainability.confidence) →
      shouldUseLLMFlag llmEnabled o = false →
      (categorizeTransaction rx rules llmEnabled o llm t).result =
        { categoryId := (categorizeWithRules rx t rules).categoryId
          tags := (categorizeWithRules rx t rules).tags
          explainability := (categorizeWithRules rx t rules).explainability
          usedLLM := false }) ∧
    (∀ lr : LLMResult,
      ¬((categorizeWithRules rx t rules).categoryId ≠ none ∧
        RULE_CONFIDENCE_THRESHOLD ≤
          (categorizeWithRules rx t rules).explainability.confidence) →
      shouldUseLLMFlag llmEnabled o = true → llm = some lr →
      lr.categoryId ≠ none →
      (categorizeTransaction rx rules llmEnabled o llm t).result =
        { categoryId := lr.categoryId, tags := []
          explainability :=
            { reason := .llm, confidence := lr.confidence,
              llmModel := some LLM_MODEL_NAME,
              llmReasoning := some lr.reasoning }
          usedLLM := true }) ∧
    (∀ lr : LLMResult,
      ¬((categorizeWithRules rx t rules).categoryId ≠ none ∧
        RULE_CONFIDENCE_THRESHOLD ≤
          (categorizeWithRules rx t rules).explainability.confidence) →
      shouldUseLLMFlag llmEnabled o = true → llm = some lr →
      lr.categoryId = none →
      (categorizeTransaction rx rules llmEnabled o llm t).result =
        { categoryId := none, tags := []
          explainability :=
            { reason := .no_match, confidence := 0,
              llmReasoning := some lr.reasoning }
          usedLLM := true }) := by
  refine ⟨?_, ?_, ?_, ?_, ?_⟩
  · intro hgate
    obtain ⟨r, hr, h1, h2⟩ := categorizeWithRules_matched rx t rules hgate.1
    have htr0 : truthyStr (some r.id) = true := by
      simp only [truthyStr, decide_eq_true_eq]
      exact hId r hr
    refine ⟨?_, ?_, ?_, ?_⟩
    · simp only [categorizeTransaction, if_pos hgate]
    · simp only [categorizeTransaction, if_pos hgate]
      exact h2
    · simp [categorizeTransaction, if_pos hgate, h1, htr0]
    · simp [categorizeTransaction, if_pos hgate, h1, htr0]
  · intro hgate
    simp only [categorizeTransaction, if_neg hgate]
    split
    · rfl
    · cases llm with
      | none => rfl
      | some lr =>
        simp only
        split
        · rfl
        · rfl
  · intro hgate hflag
    simp only [categorizeTransaction, if_neg hgate, hflag]
    rfl
  · intro lr hgate hflag hllm hcat
    simp only [categorizeTransaction, if_neg hgate, hflag, hllm]
    simp [hcat]
  · intro lr hgate hflag hllm hcat
    simp only [categorizeTransaction, if_neg hgate, hflag, hllm]
    simp [hcat]

/-- Witness for C2: with no rules and an enabled LLM yielding a category, the
orchestrator returns that category with reason llm and the model recorded. -/
theorem orchestrator_confidence_gate_C2_witness :
    (categorizeTransaction (fun _ _ => none) [] true {}
        (some { categoryId := some "dining", confidence := 0.9,
                reasoning := "restaurant" })
        { merchantNormalized := "CHIPOTLE", description := "CHIPOTLE 1.23",
          amount := -1500, accountId := "acct1" }).result =
      { categoryId := some "dining", tags := []
        explainability :=
          { reason := .llm, confidence := 0.9,
            llmModel := some LLM_MODEL_NAME,
            llmReasoning := some "restaurant" }
        usedLLM := true } :=
  ((orchestrator_confidence_gate_C2 (fun _ _ => none) [] true {}
      (some { categoryId := some "dining", confidence := 0.9,
              reasoning := "restaurant" })
      { merchantNormalized := "CHIPOTLE", description := "CHIPOTLE 1.23",
        amount := -1500, accountId := "acct1" }
      (by intro r hr; cases hr)).2.2.2.1
    { categoryId := some "dining", confidence := 0.9,
      reasoning := "restaurant" }
    (by decide) (by decide) rfl (by decide))

/-! ## Import service (services/import-service.ts) -/

/-- Calendar date (the date part of a stored instant).  JavaScript Date
values enter the txKey only through toISOString().split('T')[0], so the
embedding keeps the UTC year-month-day triple. -/
structure DateYMD where
  year : Nat
  month : Nat
  day : Nat
deriving DecidableEq, Repr

/-- Two-digit zero padding. -/
def pad2 (n : Nat) : String := if n < 10 then "0" ++ toString n else toString n

/-- Four-digit zero padding (ISO year). -/
def pad4 (n : Nat) : String :=
  if n < 10 then "000" ++ toString n
  else if n < 100 then "00" ++ toString n
  else if n < 1000 then "0" ++ toString n
  else toString n

/-- The YYYY-MM-DD rendering produced by toISOString().split('T')[0]. -/
def isoDate (d : DateYMD) : String :=
  pad4 d.year ++ "-" ++ pad2 d.month ++ "-" ++ pad2 d.day

/-- A parsed transaction row (types/index.ts, ParsedTransaction). -/
structure ParsedTransaction where
  postedAt : DateYMD
  amount : Int
  description : String
  merchantRaw : String
deriving DecidableEq, Repr

/-- generateTxKey (import-service.ts): digest of the string
accountId|YYYY-MM-DD|amount|description.  The sha256 hex digest itself is
the parameter hash. -/
def generateTxKey (hash : String → String) (accountId : String)
    (postedAt : DateYMD) (amount : Int) (description : String) : String :=
  hash (accountId ++ "|" ++ isoDate postedAt ++ "|" ++ toString amount ++
    "|" ++ description)

/-- The fields of a persisted transaction document that the import pipeline
writes (one owner's collection slice; ownership is implicit because every
query key on the owner). -/
structure StoredTx where
  accountId : String
  importId : String
  postedAt : DateYMD
  amount : Int
  description : String
  merchantRaw : String
  merchantNormalized : String
  categoryId : Option String
  txKey : String
deriving DecidableEq, Repr

/-- transactionExistsByKey (transaction-service.ts) over one owner's rows. -/
def transactionExistsByKey (store : List StoredTx) (txKey : String) : Bool :=
  store.any (fun t => t.txKey == txKey)

/-- Outcome of processImport: counters plus the resulting transaction set. -/
structure ImportOutcome where
  created : Nat
  skipped : Nat
  store : List StoredTx
deriving Repr

/-- processImport (import-service.ts), dedup and persistence phases: every
parsed row is keyed with generateTxKey; rows whose key already exists in the
snapshot taken before any write are skipped; the survivors are normalized,
batch-categorized and appended.  Parameters: hash is the sha256 hex digest,
normalize the merchant normalization (deterministic pass plus its LLM
fallback), cat the categoryId assigned by batchCategorizeTransactions.  The
Import status record is not modelled; the success path is assumed (writes do
not fail). -/
def rowKey (hash : String → String) (accountId : String)
    (p : ParsedTransaction) : String :=
  generateTxKey hash accountId p.postedAt p.amount p.description

/-- The transaction document written for one surviving row. -/
def mkStoredTx (normalize : String → String)
    (cat : ParsedTransaction → Option String) (hash : String → String)
    (accountId importId : String) (p : ParsedTransaction) : StoredTx :=
  { accountId := accountId, importId := importId, postedAt := p.postedAt,
    amount := p.amount, description := p.description,
    merchantRaw := p.merchantRaw,
    merchantNormalized := normalize p.merchantRaw,
    categoryId := cat p, txKey := rowKey hash accountId p }

def processImport (hash : String → String) (normalize : String → String)
    (cat : ParsedTransaction → Option String) (store : List StoredTx)
    (accountId importId : String) (rows : List ParsedTransaction) :
    ImportOutcome :=
  let toCreate := rows.filter
    (fun p => !transactionExistsByKey store (rowKey hash accountId p))
  let newTxs := toCreate.map (mkStoredTx normalize cat hash accountId importId)
  { created := newTxs.length
    skipped := rows.length - toCreate.length
    store := store ++ newTxs }

theorem transactionExistsByKey_append (s t : List StoredTx) (k : String) :
    transactionExistsByKey (s ++ t) k =
      (transactionExistsByKey s k || transactionExistsByKey t k) := by
  simp [transactionExistsByKey, List.any_append]

theorem length_filter_split (p : ParsedTransaction → Bool)
    (l : List ParsedTransaction) :
    (l.filter p).length + (l.filter (fun a => !p a)).length = l.length := by
  induction l with
  | nil => rfl
  | cons a l ih =>
    cases h : p a <;> simp [List.filter, h, ← ih] <;> omega

/-- C3: the txKey persisted for a row is the digest of
accountId|YYYY-MM-DD|amount|description; a row whose key already exists for
the owner is skipped rather than persisted (every persisted row was either
already present or carried a fresh key, and skipped counts exactly the
already-present rows); re-importing the same rows against the same account
yields created 0, skipped N, with the persisted transaction set unchanged. -/
theorem import_idempotent_C3 (hash normalize : String → String)
    (cat : ParsedTransaction → Option String) (store : List StoredTx)
    (accountId importId importId2 : String)
    (rows : List ParsedTransaction) :
    (∀ aid d amt desc, generateTxKey hash aid d amt desc =
      hash (aid ++ "|" ++ isoDate d ++ "|" ++ toString amt ++ "|" ++ desc)) ∧
    (∀ tx ∈ (processImport hash normalize cat store accountId importId
        rows).store,
      tx ∈ store ∨ transactionExistsByKey store tx.txKey = false) ∧
    (processImport hash normalize cat store accountId importId rows).skipped =
      (rows.filter
        (fun p => transactionExistsByKey store (rowKey hash accountId
          p))).length ∧
    (processImport hash normalize cat
        (processImport hash normalize cat store accountId importId rows).store
        accountId importId2 rows).created = 0 ∧
    (processImport hash normalize cat
        (processImport hash normalize cat store accountId importId rows).store
        accountId importId2 rows).skipped = rows.length ∧
    (processImport hash normalize cat
        (processImport hash normalize cat store accountId importId rows).store
        accountId importId2 rows).store =
      (processImport hash normalize cat store accountId importId
        rows).store := by
  have hall : ∀ p ∈ rows,
      transactionExistsByKey
        (processImport hash normalize cat store accountId importId rows).store
        (rowKey hash accountId p) = true := by
    intro p hp
    rw [processImport, transactionExistsByKey_append]
    by_cases h : transactionExistsByKey store (rowKey hash accountId p) = true
    · rw [h, Bool.true_or]
    · have hnb : (!transactionExistsByKey store
          (rowKey hash accountId p)) = true := by
        simp [Bool.eq_false_iff.mpr h]
      have hmem : mkStoredTx normalize cat hash accountId importId p ∈
          (rows.filter (fun q => !transactionExistsByKey store
            (rowKey hash accountId q))).map
            (mkStoredTx normalize cat hash accountId importId) :=
        List.mem_map_of_mem _ (List.mem_filter.mpr ⟨hp, hnb⟩)
      have : transactionExistsByKey
          ((rows.filter (fun q => !transactionExistsByKey store
            (rowKey hash accountId q))).map
            (mkStoredTx normalize cat hash accountId importId))
          (rowKey hash accountId p) = true := by
        rw [transactionExistsByKey, List.any_eq_true]
        exact ⟨_, hmem, by simp [mkStoredTx]⟩
      rw [this, Bool.or_true]
  have hnil : rows.filter (fun p => !transactionExistsByKey
      (processImport hash normalize cat store accountId importId rows).store
      (rowKey hash accountId p)) = [] := by
    rw [List.filter_eq_nil_iff]
    intro p hp
    simp [hall p hp]
  refine ⟨fun _ _ _ _ => rfl, ?_, ?_, ?_, ?_, ?_⟩
  · intro tx htx
    rw [processImport] at htx
    rcases List.mem_append.mp htx with h | h
    · exact Or.inl h
    · right
      obtain ⟨p, hp, rfl⟩ := List.mem_map.mp h
      have := (List.mem_filter.mp hp).2
      simpa [mkStoredTx] using this
  · rw [processImport]
    have := length_filter_split
      (fun p => transactionExistsByKey store (rowKey hash accountId p)) rows
    simp only at this ⊢
    omega
  · rw [processImport, hnil]
    rfl
  · rw [processImport, hnil]
    simp
  · rw [processImport, hnil]
    simp

/-- Witness for C3: importing one concrete row twice creates it once; the
second import creates nothing and skips the single row. -/
theorem import_idempotent_C3_witness :
    (processImport (fun s => "sha" ++ s) (fun s => s) (fun _ => none)
        (processImport (fun s => "sha" ++ s) (fun s => s) (fun _ => none) []
          "acct1" "imp1"
          [{ postedAt := ⟨2024, 1, 15⟩, amount := -5000,
             description := "COFFEE SHOP", merchantRaw := "COFFEE SHOP" }]).store
        "acct1" "imp2"
        [{ postedAt := ⟨2024, 1, 15⟩, amount := -5000,
           description := "COFFEE SHOP", merchantRaw := "COFFEE SHOP" }]).created
      = 0 ∧
    (processImport (fun s => "sha" ++ s) (fun s => s) (fun _ => none)
        (processImport (fun s => "sha" ++ s) (fun s => s) (fun _ => none) []
          "acct1" "imp1"
          [{ postedAt := ⟨2024, 1, 15⟩, amount := -5000,
             description := "COFFEE SHOP", merchantRaw := "COFFEE SHOP" }]).store
        "acct1" "imp2"
        [{ postedAt := ⟨2024, 1, 15⟩, amount := -5000,
           description := "COFFEE SHOP", merchantRaw := "COFFEE SHOP" }]).skipped
      = 1 :=
  ⟨(import_idempotent_C3 (fun s => "sha" ++ s) (fun s => s) (fun _ => none) []
      "acct1" "imp1" "imp2"
      [{ postedAt := ⟨2024, 1, 15⟩, amount := -5000,
         description := "COFFEE SHOP", merchantRaw := "COFFEE SHOP" }]).2.2.2.1,
   (import_idempotent_C3 (fun s => "sha" ++ s) (fun s => s) (fun _ => none) []
      "acct1" "imp1" "imp2"
      [{ postedAt := ⟨2024, 1, 15⟩, amount := -5000,
         description := "COFFEE SHOP", merchantRaw := "COFFEE SHOP" }]).2.2.2.2.1⟩

/-! ## Transaction documents and the splits service
(services/splits-service.ts, services/transaction-service.ts) -/

/-- The autoCategory payload preserved on a transaction (types/index.ts,
AutoCategoryResult; categorizedAt omitted as a timestamp). -/
structure AutoCategory where
  categoryId : Option String
  explainability : Explainability
deriving DecidableEq, Repr

/-- A full transaction document (types/index.ts, Transaction), minus the
timestamp bookkeeping fields and receipt line items. -/
structure TxRec where
  uid : String
  accountId : String
  importId : String
  postedAt : DateYMD
  amount : Int
  description : String
  merchantRaw : String
  merchantNormalized : String
  categoryId : Option String
  autoCategory : Option AutoCategory
  manualOverride : Bool
  explainability : Explainability
  notes : Option String
  tags : List String
  isSplitParent : Bool
  splitParentId : Option String
  txKey : String
deriving DecidableEq, Repr

/-- The transactions collection: document id to document, in creation
order. -/
abbrev TxStore := List (String × TxRec)

/-- Update the document stored under the given id, if present. -/
def updateAt (store : TxStore) (id : String) (f : TxRec → TxRec) : TxStore :=
  store.map (fun kv => bif kv.1 == id then (kv.1, f kv.2) else kv)

/-- One entry of the splits array (types/index.ts, SplitTransactionBody). -/
structure SplitInput where
  amount : Int
  categoryId : Option String := none
  notes : Option String := none
deriving DecidableEq, Repr

/-- Result shape of validateSplits. -/
inductive SplitValidation
  | valid
  | invalid (error : String)
deriving DecidableEq, Repr

def MIN_SPLITS : Nat := 2

def MAX_SPLITS : Nat := 10

/-- validateSplits (splits-service.ts): length bounds, exact sum, and the
sign checks against the original amount (isExpense means original < 0). -/
def validateSplits (originalAmount : Int) (splits : List SplitInput) :
    SplitValidation :=
  if splits.length < MIN_SPLITS then
    .invalid "Minimum 2 splits required"
  else if splits.length > MAX_SPLITS then
    .invalid "Maximum 10 splits allowed"
  else if (splits.map (·.amount)).sum ≠ originalAmount then
    .invalid "Split amounts must equal original amount"
  else if originalAmount < 0 then
    if splits.any (fun s => decide (s.amount > 0)) then
      .invalid "Split amounts must be negative for expense transactions"
    else .valid
  else
    if splits.any (fun s => decide (s.amount < 0)) then
      .invalid "Split amounts must be positive for income transactions"
    else .valid

/-- Outcome of splitTransaction: null return (not found / cross-owner),
thrown error, or success with the ids of the created children. -/
inductive SplitOutcome
  | notFound
  | failed (error : String)
  | ok (parentId : String) (childIds : List String)
deriving DecidableEq, Repr

/-- Fresh Firestore document ids for the children; modelled deterministically
from the parent id and child index (Firestore guarantees freshness). -/
def childId (txId : String) (i : Nat) : String :=
  txId ++ "_child_" ++ toString i

/-- The child document written for split i of n (splits-service.ts):
copied account/import/date/merchant fields, suffixed description,
categoryId from the split entry, autoCategory null, manualOverride true
exactly when a truthy categoryId was supplied, split explainability with
confidence 1.0, txKey parentKey_split_i. -/
def mkSplitChild (uid : String) (p : TxRec) (txId : String) (i n : Nat)
    (s : SplitInput) : TxRec :=
  { uid := uid
    accountId := p.accountId
    importId := p.importId
    postedAt := p.postedAt
    amount := s.amount
    description := p.description ++ " (Split " ++ toString (i + 1) ++ "/" ++
      toString n ++ ")"
    merchantRaw := p.merchantRaw
    merchantNormalized := p.merchantNormalized
    categoryId := s.categoryId
    autoCategory := none
    manualOverride := truthyStr s.categoryId
    explainability := { reason := .split, confidence := 1 }
    notes := s.notes
    tags := []
    isSplitParent := false
    splitParentId := some txId
    txKey := p.txKey ++ "_split_" ++ toString i }

/-- splitTransaction (splits-service.ts): null when the parent is missing or
owned by another user; throws when the parent is already a split parent,
already a split child, or the splits fail validation; otherwise, in one
batch, flips the parent flag and inserts the children. -/
def splitTransaction (store : TxStore) (uid txId : String)
    (splits : List SplitInput) : SplitOutcome × TxStore :=
  match store.lookup txId with
  | none => (.notFound, store)
  | some p =>
    if p.uid ≠ uid then (.notFound, store)
    else if p.isSplitParent then
      (.failed "Transaction is already split. Unsplit first to modify.", store)
    else if truthyStr p.splitParentId then
      (.failed "Cannot split a transaction that is already part of a split.",
        store)
    else
      match validateSplits p.amount splits with
      | .invalid msg => (.failed msg, store)
      | .valid =>
        let children := splits.enum.map (fun is =>
          (childId txId is.1, mkSplitChild uid p txId is.1 splits.length is.2))
        (.ok txId (children.map (·.1)),
          updateAt store txId (fun q => { q with isSplitParent := true }) ++
            children)

theorem lookup_updateAt_self (store : TxStore) (id : String)
    (f : TxRec → TxRec) (p : TxRec) (h : store.lookup id = some p) :
    (updateAt store id f).lookup id = some (f p) := by
  induction store with
  | nil => simp [List.lookup] at h
  | cons kv rest ih =>
    obtain ⟨k, v⟩ := kv
    by_cases hk : k = id
    · subst hk
      rw [List.lookup] at h
      simp only [beq_self_eq_true] at h
      have hv : v = p := by simpa using h
      subst hv
      simp [updateAt, List.lookup]
    · have hbeq : (id == k) = false := beq_eq_false_iff_ne.mpr (Ne.symm hk)
      have hbeq2 : (k == id) = false := beq_eq_false_iff_ne.mpr hk
      rw [List.lookup, hbeq] at h
      simp only [updateAt, List.map, hbeq2, cond_false]
      rw [List.lookup, hbeq]
      simpa only [updateAt] using ih h

theorem lookup_append_left (l1 l2 : TxStore) (id : String) (p : TxRec)
    (h : l1.lookup id = some p) : (l1 ++ l2).lookup id = some p := by
  induction l1 with
  | nil => simp [List.lookup] at h
  | cons kv rest ih =>
    obtain ⟨k, v⟩ := kv
    by_cases hk : k = id
    · subst hk
      simp [List.lookup] at h ⊢
      exact h
    · have hbeq : (id == k) = false := beq_eq_false_iff_ne.mpr (Ne.symm hk)
      rw [List.lookup, hbeq] at h
      rw [List.cons_append, List.lookup, hbeq]
      exact ih h

theorem splitTransaction_invalid (store : TxStore) (uid txId : String)
    (splits : List SplitInput) (p : TxRec) (msg : String)
    (hp : store.lookup txId = some p) (hu : p.uid = uid)
    (h1 : p.isSplitParent = false) (h2 : truthyStr p.splitParentId = false)
    (hv : validateSplits p.amount splits = .invalid msg) :
    splitTransaction store uid txId splits = (.failed msg, store) := by
  simp [splitTransaction, hp, hu, h1, h2, hv]

theorem validateSplits_invalid_of_violation (a : Int)
    (splits : List SplitInput)
    (h : splits.length < 2 ∨ splits.length > 10 ∨
      (splits.map (·.amount)).sum ≠ a ∨
      (a < 0 ∧ ∃ s ∈ splits, s.amount > 0) ∨
      (0 ≤ a ∧ ∃ s ∈ splits, s.amount < 0)) :
    ∃ msg, validateSplits a splits = .invalid msg := by
  by_cases hl1 : splits.length < 2
  · refine ⟨"Minimum 2 splits required", ?_⟩
    simp only [validateSplits, MIN_SPLITS, MAX_SPLITS]
    rw [if_pos hl1]
  by_cases hl2 : splits.length > 10
  · refine ⟨"Maximum 10 splits allowed", ?_⟩
    simp only [validateSplits, MIN_SPLITS, MAX_SPLITS]
    rw [if_neg hl1, if_pos hl2]
  by_cases hsum : (splits.map (·.amount)).sum ≠ a
  · refine ⟨"Split amounts must equal original amount", ?_⟩
    simp only [validateSplits, MIN_SPLITS, MAX_SPLITS]
    rw [if_neg hl1, if_neg hl2, if_pos hsum]
  rcases h with h | h | h | ⟨hneg, s, hs, hsp⟩ | ⟨hpos, s, hs, hsn⟩
  · exact absurd h hl1
  · exact absurd h hl2
  · exact absurd h hsum
  · have hany : splits.any (fun s => decide (s.amount > 0)) = true :=
      List.any_eq_true.mpr ⟨s, hs, by simpa using hsp⟩
    refine ⟨"Split amounts must be negative for expense transactions", ?_⟩
    simp only [validateSplits, MIN_SPLITS, MAX_SPLITS]
    rw [if_neg hl1, if_neg hl2, if_neg hsum, if_pos hneg, if_pos hany]
  · have hany : splits.any (fun s => decide (s.amount < 0)) = true :=
      List.any_eq_true.mpr ⟨s, hs, by simpa using hsn⟩
    refine ⟨"Split amounts must be positive for income transactions", ?_⟩
    simp only [validateSplits, MIN_SPLITS, MAX_SPLITS]
    rw [if_neg hl1, if_neg hl2, if_neg hsum, if_neg (not_lt.mpr hpos),
      if_pos hany]

/-- C5: with the parent found and owned, splitTransaction rejects (throws,
leaving the store untouched) any request whose length is outside 2..10,
whose amounts do not sum to the parent amount, or that contains an amount of
sign opposite to the parent; it likewise rejects a parent that is already a
split parent or itself a split child; no failure path ever modifies the
store; and on success the parent's isSplitParent becomes true and exactly n
children are appended, each carrying splitParentId equal to the parent's
id. -/
theorem split_validation_C5 (store : TxStore) (uid txId : String)
    (splits : List SplitInput) (p : TxRec)
    (hp : store.lookup txId = some p) (hu : p.uid = uid) :
    (p.isSplitParent = false → truthyStr p.splitParentId = false →
      (splits.length < 2 ∨ splits.length > 10 ∨
          (splits.map (·.amount)).sum ≠ p.amount ∨
          (p.amount < 0 ∧ ∃ s ∈ splits, s.amount > 0) ∨
          (0 ≤ p.amount ∧ ∃ s ∈ splits, s.amount < 0) →
        ∃ msg, splitTransaction store uid txId splits =
          (.failed msg, store))) ∧
    (p.isSplitParent = true →
      ∃ msg, splitTransaction store uid txId splits = (.failed msg, store)) ∧
    (p.isSplitParent = false → truthyStr p.splitParentId = true →
      ∃ msg, splitTransaction store uid txId splits = (.failed msg, store)) ∧
    (∀ msg, (splitTransaction store uid txId splits).1 = .failed msg →
      (splitTransaction store uid txId splits).2 = store) ∧
    (p.isSplitParent = false → truthyStr p.splitParentId = false →
      validateSplits p.amount splits = .valid →
      (splitTransaction store uid txId splits).1 =
        .ok txId (splits.enum.map (fun is => childId txId is.1)) ∧
      (splitTransaction store uid txId splits).2 =
        updateAt store txId (fun q => { q with isSplitParent := true }) ++
          splits.enum.map (fun is =>
            (childId txId is.1,
              mkSplitChild uid p txId is.1 splits.length is.2)) ∧
      (splitTransaction store uid txId splits).2.lookup txId =
        some { p with isSplitParent := true } ∧
      (splits.enum.map (fun is =>
        (childId txId is.1,
          mkSplitChild uid p txId is.1 splits.length is.2))).length =
        splits.length ∧
      (∀ c ∈ splits.enum.map (fun is =>
          (childId txId is.1,
            mkSplitChild uid p txId is.1 splits.length is.2)),
        c.2.splitParentId = some txId ∧ c.2.isSplitParent = false ∧
          c.2.uid = uid)) := by
  refine ⟨?_, ?_, ?_, ?_, ?_⟩
  · intro h1 h2 hviol
    obtain ⟨msg, hv⟩ := validateSplits_invalid_of_violation p.amount splits hviol
    exact ⟨msg, splitTransaction_invalid store uid txId splits p msg hp hu h1
      h2 hv⟩
  · intro h1
    exact ⟨"Transaction is already split. Unsplit first to modify.",
      by simp [splitTransaction, hp, hu, h1]⟩
  · intro h1 h2
    exact ⟨"Cannot split a transaction that is already part of a split.",
      by simp [splitTransaction, hp, hu, h1, h2]⟩
  · intro msg hmsg
    rw [splitTransaction, hp] at hmsg ⊢
    by_cases huid : p.uid ≠ uid
    · simp [huid] at hmsg ⊢
    by_cases h1 : p.isSplitParent
    · simp [huid, h1]
    by_cases h2 : truthyStr p.splitParentId
    · simp [huid, h1, h2]
    cases hv : validateSplits p.amount splits with
    | valid => simp [huid, h1, h2, hv] at hmsg
    | invalid m => simp [huid, h1, h2, hv]
  · intro h1 h2 hv
    have hred : splitTransaction store uid txId splits =
        (.ok txId ((splits.enum.map (fun is =>
            (childId txId is.1,
              mkSplitChild uid p txId is.1 splits.length is.2))).map (·.1)),
          updateAt store txId (fun q => { q with isSplitParent := true }) ++
            splits.enum.map (fun is =>
              (childId txId is.1,
                mkSplitChild uid p txId is.1 splits.length is.2))) := by
      simp [splitTransaction, hp, hu, h1, h2, hv]
    refine ⟨?_, ?_, ?_, ?_, ?_⟩
    · rw [hred]
      simp
    · rw [hred]
    · rw [hred]
      exact lookup_append_left _ _ _ _
        (lookup_updateAt_self store txId _ p hp)
    · simp
    · intro c hc
      obtain ⟨is, _, rfl⟩ := List.mem_map.mp hc
      exact ⟨rfl, rfl, rfl⟩

/-- Concrete expense parent used by the split witness (amount -10000). -/
def parent0 : TxRec :=
  { uid := "u1", accountId := "a1", importId := "i1",
    postedAt := ⟨2024, 1, 15⟩, amount := -10000, description := "BIG BUY",
    merchantRaw := "BIG BUY", merchantNormalized := "BIG BUY",
    categoryId := none, autoCategory := none, manualOverride := false,
    explainability := { reason := .no_match, confidence := 0 },
    notes := none, tags := [], isSplitParent := false, splitParentId := none,
    txKey := "k1" }

/-- Witness for C5: splitting a -10000 parent with amounts -4000 and -3000
(sum -7000) fails validation and leaves the store unchanged. -/
theorem split_validation_C5_witness :
    (splitTransaction [("t1", parent0)] "u1" "t1"
        [{ amount := -4000 }, { amount := -3000 }]).2 = [("t1", parent0)] :=
  (split_validation_C5 [("t1", parent0)] "u1" "t1"
      [{ amount := -4000 }, { amount := -3000 }] parent0 rfl rfl).2.2.2.1
    "Split amounts must equal original amount" (by decide)

/-! ## Transaction lifecycle operations (import, PATCH, split, unsplit,
recategorize) for the manualOverride/autoCategory invariant -/

/-- createTransaction (transaction-service.ts): the document written for an
imported row; manualOverride is false and autoCategory is preserved from the
categorization exactly when a truthy categoryId was assigned. -/
def mkImportedTx (uid accountId importId : String) (postedAt : DateYMD)
    (amount : Int)
    (description merchantRaw merchantNormalized txKey : String)
    (categoryId : Option String) (e : Explainability) : TxRec :=
  { uid := uid, accountId := accountId, importId := importId,
    postedAt := postedAt, amount := amount, description := description,
    merchantRaw := merchantRaw, merchantNormalized := merchantNormalized,
    categoryId := categoryId
    autoCategory :=
      if truthyStr categoryId then
        some { categoryId := categoryId, explainability := e }
      else none
    manualOverride := false
    explainability := e
    notes := none, tags := [], isSplitParent := false, splitParentId := none,
    txKey := txKey }

/-- PATCH body for a transaction (types/index.ts, UpdateTransactionBody); an
outer none means the field was not supplied. -/
structure UpdateTxBody where
  categoryId : Option (Option String) := none
  notes : Option (Option String) := none
  tags : Option (List String) := none
deriving DecidableEq, Repr

/-- The field updates applied by updateTransaction once validation passed:
a supplied categoryId sets manualOverride, rewrites explainability to a
manual reason, and preserves the previous categorization in autoCategory
when this is the first override and none is stored yet. -/
def applyUpdates (cur : TxRec) (b : UpdateTxBody) : TxRec :=
  let afterCat :=
    match b.categoryId with
    | none => cur
    | some newCat =>
      { cur with
        categoryId := newCat
        manualOverride := true
        explainability := { reason := .manual, confidence := 1 }
        autoCategory :=
          if cur.manualOverride = false ∧ cur.autoCategory = none then
            some { categoryId := cur.categoryId,
                   explainability := cur.explainability }
          else cur.autoCategory }
  let afterNotes :=
    match b.notes with
    | none => afterCat
    | some n => { afterCat with notes := if truthyStr n then n else none }
  match b.tags with
  | none => afterNotes
  | some ts => { afterNotes with tags := ts }

/-- Outcome of updateTransaction. -/
inductive UpdateOutcome
  | notFound
  | failed (msg : String)
  | ok
deriving DecidableEq, Repr

/-- updateTransaction (transaction-service.ts): null on missing or
cross-owner documents; throws on over-long notes, more than 10 tags or an
over-long tag, leaving the store unchanged; otherwise applies the updates. -/
def updateTransaction (store : TxStore) (uid txId : String)
    (b : UpdateTxBody) : UpdateOutcome × TxStore :=
  match store.lookup txId with
  | none => (.notFound, store)
  | some cur =>
    if cur.uid ≠ uid then (.notFound, store)
    else if b.notes.elim false
        (fun n => truthyStr n && decide ((n.getD "").length > 500)) then
      (.failed "Notes cannot exceed 500 characters", store)
    else if b.tags.elim false (fun ts => decide (ts.length > 10)) then
      (.failed "Cannot have more than 10 tags", store)
    else if b.tags.elim false
        (fun ts => ts.any (fun tag => decide (tag.length > 50))) then
      (.failed "Each tag cannot exceed 50 characters", store)
    else
      (.ok, updateAt store txId (fun q => applyUpdates q b))

/-- unsplitTransaction (splits-service.ts): requires an owned split parent;
in one batch deletes every child with this splitParentId and clears the
parent flag.  All failure paths leave the store unchanged. -/
def unsplitTransaction (store : TxStore) (uid txId : String) : TxStore :=
  match store.lookup txId with
  | none => store
  | some p =>
    if p.uid ≠ uid then store
    else if !p.isSplitParent then store
    else
      updateAt
        (store.filter (fun kv =>
          !(kv.2.uid == uid && kv.2.splitParentId == some txId)))
        txId (fun q => { q with isSplitParent := false })

/-- The conditional write at the end of the recategorization loop body:
update categoryId, explainability and autoCategory when the category
changed, otherwise leave the document untouched. -/
def recatApply (store : TxStore) (txId : String) (d : TxRec)
    (result : FullCategorizationResult) : TxStore :=
  if result.categoryId ≠ d.categoryId then
    updateAt store txId (fun q =>
      { q with
        categoryId := result.categoryId
        explainability := result.explainability
        autoCategory := some { categoryId := result.categoryId,
                               explainability := result.explainability } })
  else store

/-- The body of the recategorizeTransactions loop for one transaction id
(categorization-orchestrator.ts): skip missing, cross-owner, or
manually-overridden documents (unless includeManualOverrides); rerun the
single-transaction flow and, when the category changed, update categoryId,
explainability and autoCategory atomically. -/
def recategorizeOne (rx : String → String → Option String)
    (rules : List Rule) (llmEnabled : Bool) (o : CategorizationOptions)
    (llm : Option LLMResult) (store : TxStore) (uid txId : String)
    (includeManualOverrides : Bool) : TxStore :=
  match store.lookup txId with
  | none => store
  | some d =>
    if d.uid ≠ uid then store
    else if d.manualOverride && !includeManualOverrides then store
    else
      recatApply store txId d (categorizeTransaction rx rules llmEnabled o
        llm
        { merchantNormalized := d.merchantNormalized,
          description := d.description, amount := d.amount,
          accountId := d.accountId, merchantRaw := d.merchantRaw }).result

/-- One core operation touching the transactions collection. -/
inductive TxOp
  | importTx (uid accountId importId id : String) (postedAt : DateYMD)
      (amount : Int)
      (description merchantRaw merchantNormalized txKey : String)
      (categoryId : Option String) (e : Explainability)
  | patch (uid id : String) (b : UpdateTxBody)
  | split (uid id : String) (splits : List SplitInput)
  | unsplit (uid id : String)
  | recat (rx : String → String → Option String) (rules : List Rule)
      (llmEnabled : Bool) (o : CategorizationOptions) (llm : Option LLMResult)
      (uid id : String) (includeManualOverrides : Bool)

/-- Effect of one operation on the transactions collection. -/
def applyOp (store : TxStore) : TxOp → TxStore
  | .importTx uid accountId importId id postedAt amount d mr mn txKey catId
      e =>
    store ++ [(id, mkImportedTx uid accountId importId postedAt amount d mr
      mn txKey catId e)]
  | .patch uid id b => (updateTransaction store uid id b).2
  | .split uid id splits => (splitTransaction store uid id splits).2
  | .unsplit uid id => unsplitTransaction store uid id
  | .recat rx rules llmEnabled o llm uid id inc =>
    recategorizeOne rx rules llmEnabled o llm store uid id inc

/-- Effect of a sequence of operations. -/
def applyOps (store : TxStore) : List TxOp → TxStore
  | [] => store
  | op :: ops => applyOps (applyOp store op) ops

/-- The override/autoCategory invariant restricted to transactions that are
not split children. -/
def OverrideInv (store : TxStore) : Prop :=
  ∀ kv ∈ store, kv.2.splitParentId = none → kv.2.manualOverride = true →
    kv.2.autoCategory ≠ none

theorem mem_updateAt (store : TxStore) (id : String) (f : TxRec → TxRec)
    (kv' : String × TxRec) (h : kv' ∈ updateAt store id f) :
    ∃ kv ∈ store, kv' = kv ∨ kv' = (kv.1, f kv.2) := by
  obtain ⟨kv, hkv, heq⟩ := List.mem_map.mp h
  refine ⟨kv, hkv, ?_⟩
  by_cases hb : (kv.1 == id) = true
  · right
    rw [← heq]
    simp only [hb, cond_true]
  · left
    rw [← heq]
    rw [Bool.not_eq_true] at hb
    simp only [hb, cond_false]

theorem overrideInv_updateAt (store : TxStore) (id : String)
    (f : TxRec → TxRec) (hInv : OverrideInv store)
    (hf : ∀ v : TxRec,
      (v.splitParentId = none → v.manualOverride = true →
        v.autoCategory ≠ none) →
      (f v).splitParentId = none → (f v).manualOverride = true →
      (f v).autoCategory ≠ none) :
    OverrideInv (updateAt store id f) := by
  intro kv' hkv' hsp hmo
  obtain ⟨kv, hkv, hcase⟩ := mem_updateAt store id f kv' hkv'
  rcases hcase with h | h
  · rw [h] at hsp hmo ⊢
    exact hInv kv hkv hsp hmo
  · rw [h] at hsp hmo ⊢
    exact hf kv.2 (hInv kv hkv) hsp hmo

theorem applyUpdates_override (cur : TxRec) (b : UpdateTxBody)
    (hInv : cur.splitParentId = none → cur.manualOverride = true →
      cur.autoCategory ≠ none)
    (hsp : (applyUpdates cur b).splitParentId = none)
    (hmo : (applyUpdates cur b).manualOverride = true) :
    (applyUpdates cur b).autoCategory ≠ none := by
  obtain ⟨bc, bn, bt⟩ := b
  cases bc with
  | none =>
    cases bn <;> cases bt <;>
      simp only [applyUpdates] at hsp hmo ⊢ <;> exact hInv hsp hmo
  | some newCat =>
    have hcore :
        (if cur.manualOverride = false ∧ cur.autoCategory = none then
          some { categoryId := cur.categoryId,
                 explainability := cur.explainability }
        else cur.autoCategory) ≠ none := by
      split
      · exact Option.some_ne_none _
      · rename_i hcond
        by_cases hm : cur.manualOverride = true
        · have hspc : cur.splitParentId = none := by
            cases bn <;> cases bt <;>
              simpa only [applyUpdates] using hsp
          exact hInv hspc hm
        · have hmf : cur.manualOverride = false := by
            revert hm
            cases cur.manualOverride <;> simp
          intro hnone
          exact hcond ⟨hmf, hnone⟩
    cases bn <;> cases bt <;> simpa only [applyUpdates] using hcore

theorem updateTransaction_snd (store : TxStore) (uid id : String)
    (b : UpdateTxBody) :
    (updateTransaction store uid id b).2 = store ∨
    (updateTransaction store uid id b).2 =
      updateAt store id (fun q => applyUpdates q b) := by
  rw [updateTransaction]
  split
  · exact Or.inl rfl
  · rename_i cur heq
    by_cases h1 : cur.uid ≠ uid
    · rw [if_pos h1]
      exact Or.inl rfl
    rw [if_neg h1]
    by_cases h2 : (b.notes.elim false
        (fun n => truthyStr n && decide ((n.getD "").length > 500))) = true
    · rw [if_pos h2]
      exact Or.inl rfl
    rw [if_neg h2]
    by_cases h3 : (b.tags.elim false
        (fun ts => decide (ts.length > 10))) = true
    · rw [if_pos h3]
      exact Or.inl rfl
    rw [if_neg h3]
    by_cases h4 : (b.tags.elim false
        (fun ts => ts.any (fun tag => decide (tag.length > 50)))) = true
    · rw [if_pos h4]
      exact Or.inl rfl
    rw [if_neg h4]
    exact Or.inr rfl

theorem splitTransaction_snd (store : TxStore) (uid id : String)
    (splits : List SplitInput) :
    (splitTransaction store uid id splits).2 = store ∨
    ∃ p, store.lookup id = some p ∧
      (splitTransaction store uid id splits).2 =
        updateAt store id (fun q => { q with isSplitParent := true }) ++
          splits.enum.map (fun is =>
            (childId id is.1, mkSplitChild uid p id is.1 splits.length
              is.2)) := by
  rw [splitTransaction]
  split
  · exact Or.inl rfl
  · rename_i p hl
    by_cases h1 : p.uid ≠ uid
    · rw [if_pos h1]
      exact Or.inl rfl
    rw [if_neg h1]
    by_cases h2 : p.isSplitParent = true
    · rw [if_pos h2]
      exact Or.inl rfl
    rw [if_neg h2]
    by_cases h3 : truthyStr p.splitParentId = true
    · rw [if_pos h3]
      exact Or.inl rfl
    rw [if_neg h3]
    cases validateSplits p.amount splits with
    | invalid msg => exact Or.inl rfl
    | valid => exact Or.inr ⟨p, hl, rfl⟩

theorem unsplitTransaction_cases (store : TxStore) (uid id : String) :
    unsplitTransaction store uid id = store ∨
    unsplitTransaction store uid id =
      updateAt (store.filter (fun kv =>
        !(kv.2.uid == uid && kv.2.splitParentId == some id))) id
        (fun q => { q with isSplitParent := false }) := by
  rw [unsplitTransaction]
  split
  · exact Or.inl rfl
  · rename_i p heq
    by_cases h1 : p.uid ≠ uid
    · rw [if_pos h1]
      exact Or.inl rfl
    rw [if_neg h1]
    by_cases h2 : (!p.isSplitParent) = true
    · rw [if_pos h2]
      exact Or.inl rfl
    rw [if_neg h2]
    exact Or.inr rfl

theorem recategorizeOne_cases (rx : String → String → Option String)
    (rules : List Rule) (llmEnabled : Bool) (o : CategorizationOptions)
    (llm : Option LLMResult) (store : TxStore) (uid id : String)
    (inc : Bool) :
    recategorizeOne rx rules llmEnabled o llm store uid id inc = store ∨
    ∃ res : FullCategorizationResult,
      recategorizeOne rx rules llmEnabled o llm store uid id inc =
        updateAt store id (fun q =>
          { q with
            categoryId := res.categoryId
            explainability := res.explainability
            autoCategory := some { categoryId := res.categoryId,
                                   explainability := res.explainability } }) := by
  rw [recategorizeOne]
  split
  · exact Or.inl rfl
  · rename_i d heq
    by_cases h1 : d.uid ≠ uid
    · rw [if_pos h1]
      exact Or.inl rfl
    rw [if_neg h1]
    by_cases h2 : (d.manualOverride && !inc) = true
    · rw [if_pos h2]
      exact Or.inl rfl
    rw [if_neg h2]
    rw [recatApply]
    split
    · exact Or.inr ⟨_, rfl⟩
    · exact Or.inl rfl

theorem overrideInv_applyOp (store : TxStore) (op : TxOp)
    (hInv : OverrideInv store) : OverrideInv (applyOp store op) := by
  cases op with
  | importTx uid accountId importId id postedAt amount d mr mn txKey catId
      e =>
    intro kv hkv hsp hmo
    rcases List.mem_append.mp hkv with h | h
    · exact hInv kv h hsp hmo
    · have hk := List.mem_singleton.mp h
      rw [hk] at hmo
      simp [mkImportedTx] at hmo
  | patch uid id b =>
    rcases updateTransaction_snd store uid id b with h | h
    · rw [applyOp, h]
      exact hInv
    · rw [applyOp, h]
      exact overrideInv_updateAt store id _ hInv
        (fun v hv => applyUpdates_override v b hv)
  | split uid id splits =>
    rcases splitTransaction_snd store uid id splits with h | ⟨p, _, h⟩
    · rw [applyOp, h]
      exact hInv
    · rw [applyOp, h]
      intro kv hkv hsp hmo
      rcases List.mem_append.mp hkv with hm | hm
      · refine overrideInv_updateAt store id _ hInv ?_ kv hm hsp hmo
        intro v hv hsp' hmo'
        exact hv hsp' hmo'
      · obtain ⟨is, _, hkk⟩ := List.mem_map.mp hm
        rw [← hkk] at hsp
        simp [mkSplitChild] at hsp
  | unsplit uid id =>
    rcases unsplitTransaction_cases store uid id with h | h
    · rw [applyOp, h]
      exact hInv
    · rw [applyOp, h]
      refine overrideInv_updateAt _ id _ ?_ ?_
      · intro kv hkv hsp hmo
        exact hInv kv (List.mem_of_mem_filter hkv) hsp hmo
      · intro v hv hsp' hmo'
        exact hv hsp' hmo'
  | recat rx rules llmEnabled o llm uid id inc =>
    rcases recategorizeOne_cases rx rules llmEnabled o llm store uid id inc
      with h | ⟨res, h⟩
    · rw [applyOp, h]
      exact hInv
    · rw [applyOp, h]
      refine overrideInv_updateAt store id _ hInv ?_
      intro v _ _ _
      simp

theorem overrideInv_applyOps (store : TxStore) (ops : List TxOp)
    (hInv : OverrideInv store) : OverrideInv (applyOps store ops) := by
  induction ops generalizing store with
  | nil => exact hInv
  | cons op ops ih => exact ih _ (overrideInv_applyOp store op hInv)

/-- Import of an uncategorized expense parent, for the C6 scenario. -/
def c6ImportOp : TxOp :=
  .importTx "u1" "a1" "i1" "t1" ⟨2024, 1, 15⟩ (-10000) "BIG" "BIG" "BIG"
    "k1" none { reason := .no_match, confidence := 0 }

/-- Split of that parent supplying a categoryId on the first child. -/
def c6SplitOp : TxOp :=
  .split "u1" "t1"
    [{ amount := -4000, categoryId := some "dining" }, { amount := -6000 }]

/-- The first split child produced by c6SplitOp. -/
def c6ChildRec : TxRec :=
  { uid := "u1", accountId := "a1", importId := "i1",
    postedAt := ⟨2024, 1, 15⟩, amount := -4000,
    description := "BIG (Split 1/2)", merchantRaw := "BIG",
    merchantNormalized := "BIG", categoryId := some "dining",
    autoCategory := none, manualOverride := true,
    explainability := { reason := .split, confidence := 1 },
    notes := none, tags := [], isSplitParent := false,
    splitParentId := some "t1", txKey := "k1_split_0" }

/-- Counterexample to C6 as stated: after importing a transaction and
splitting it with a categoryId on a child, that child has
manualOverride true while autoCategory is null — so the claimed invariant
that manualOverride implies a non-null autoCategory fails on the code. -/
theorem override_invariant_C6_counterexample :
    (applyOps [] [c6ImportOp, c6SplitOp]).lookup "t1_child_0" =
      some c6ChildRec ∧
    c6ChildRec.manualOverride = true ∧ c6ChildRec.autoCategory = none := by
  refine ⟨?_, rfl, rfl⟩
  rfl

/-- C6 amended: after any sequence of operations (import, PATCH, split,
unsplit, recategorize) starting from an empty collection, every transaction
that is not a split child satisfies the invariant: manualOverride true
implies autoCategory non-null.  Split children created with a supplied
categoryId violate the unrestricted form (see the counterexample), since
splitTransaction writes manualOverride true together with a null
autoCategory. -/
theorem override_invariant_C6 (ops : List TxOp) :
    ∀ kv ∈ applyOps [] ops, kv.2.splitParentId = none →
      kv.2.manualOverride = true → kv.2.autoCategory ≠ none :=
  overrideInv_applyOps [] ops
    (fun kv h => absurd h (List.not_mem_nil kv))

/-- PATCH setting a category on the imported transaction, for the C6
witness. -/
def c6PatchOp : TxOp := .patch "u1" "t1" { categoryId := some (some "dining") }

/-- The parent document after c6ImportOp then c6PatchOp: the manual override
preserved the previous no-match categorization in autoCategory. -/
def c6PatchedRec : TxRec :=
  { uid := "u1", accountId := "a1", importId := "i1",
    postedAt := ⟨2024, 1, 15⟩, amount := -10000, description := "BIG",
    merchantRaw := "BIG", merchantNormalized := "BIG",
    categoryId := some "dining",
    autoCategory := some
      { categoryId := none,
        explainability := { reason := .no_match, confidence := 0 } },
    manualOverride := true,
    explainability := { reason := .manual, confidence := 1 },
    notes := none, tags := [], isSplitParent := false, splitParentId := none,
    txKey := "k1" }

/-- Witness for the amended C6: the patched (non-child) transaction has a
non-null autoCategory. -/
theorem override_invariant_C6_witness : c6PatchedRec.autoCategory ≠ none :=
  override_invariant_C6 [c6ImportOp, c6PatchOp] ("t1", c6PatchedRec)
    (List.mem_singleton.mpr rfl) rfl rfl

/-! ## Rules collection, reorder and cross-owner access
(services/rules-service.ts) -/

/-- A rule document with its owner, as stored in the rules collection
(statistics and timestamps omitted). -/
structure RuleDoc where
  uid : String
  name : String
  enabled : Bool
  priority : Int
  conditions : RuleConditions
  action : RuleAction
deriving DecidableEq, Repr

/-- The rules collection: document id to document. -/
abbrev RuleStore := List (String × RuleDoc)

/-- Update the rule stored under the given id, if present. -/
def updateRuleAt (store : RuleStore) (id : String) (f : RuleDoc → RuleDoc) :
    RuleStore :=
  store.map (fun kv => bif kv.1 == id then (kv.1, f kv.2) else kv)

/-- reorderRules (rules-service.ts): for position i in ruleIds, skip falsy
ids, otherwise batch-update document ruleIds[i] to priority 1000 - i.  The
loop never consults the owner of the documents it writes; the uid argument
is only used afterwards to list the caller's rules. -/
def reorderRules (store : RuleStore) (uid : String)
    (ruleIds : List String) : RuleStore :=
  ruleIds.enum.foldl (fun s iid =>
    if iid.2 = "" then s
    else updateRuleAt s iid.2
      (fun r => { r with priority := 1000 - (iid.1 : Int) })) store

/-- getRule (rules-service.ts): null when the document is missing or owned
by another user — the same not-found answer in both cases. -/
def getRule (store : RuleStore) (uid ruleId : String) : Option RuleDoc :=
  match store.lookup ruleId with
  | none => none
  | some r => if r.uid ≠ uid then none else some r

/-- getTransaction (transaction-service.ts): null when the document is
missing or owned by another user. -/
def getTransaction (store : TxStore) (uid txId : String) : Option TxRec :=
  match store.lookup txId with
  | none => none
  | some d => if d.uid ≠ uid then none else some d

/-- A rule owned by alice, target of the cross-owner reorder. -/
def aliceRule : RuleDoc :=
  { uid := "alice", name := "amazon to shopping", enabled := true,
    priority := 500, conditions := { merchantContains := some "AMAZON" },
    action := { categoryId := "shopping" } }

/-- A transaction owned by alice, target of the cross-owner read. -/
def aliceTx : TxRec :=
  { uid := "alice", accountId := "a1", importId := "i1",
    postedAt := ⟨2024, 1, 15⟩, amount := -5000, description := "COFFEE",
    merchantRaw := "COFFEE", merchantNormalized := "COFFEE",
    categoryId := none, autoCategory := none, manualOverride := false,
    explainability := { reason := .no_match, confidence := 0 },
    notes := none, tags := [], isSplitParent := false, splitParentId := none,
    txKey := "k1" }

/-- C4 evaluated at the failing input: the ownership-checked reads do hide
alice's records from bob (not-found, indistinguishable from absence), but
reorderRules invoked by bob with the id of alice's rule WRITES to it,
setting its priority to 1000 — a cross-owner write the claim forbids. -/
theorem cross_owner_reorder_C4 :
    getRule [("r1", aliceRule)] "bob" "r1" = none ∧
    getTransaction [("t1", aliceTx)] "bob" "t1" = none ∧
    getRule [] "bob" "r1" = none ∧
    (reorderRules [("r1", aliceRule)] "bob" ["r1"]).lookup "r1" =
      some { aliceRule with priority := 1000 } := by
  refine ⟨?_, ?_, rfl, ?_⟩
  · rfl
  · rfl
  · rfl

/-! ## Regex validation and rule creation (rule-engine.ts validateRegex,
rules-service.ts createRule) -/

/-- Whether the pattern contains one of the ReDoS shapes the source tests
for.  Four of the five test regexes are literal-substring matchers; the
third one is written in the source as an escaped bracket followed by a
caret, which outside a character class is a start-of-input anchor, so that
regex matches no string at all and the shape ([^...]+)+ is never caught. -/
def redosHit (pattern : String) : Bool :=
  strIncludes pattern "(.*)+" || strIncludes pattern "(.+)+" || false ||
    strIncludes pattern "(.*)*" || strIncludes pattern "(.+)*"

/-- Result shape of validateRegex. -/
inductive RegexValidation
  | valid
  | invalid (error : String)
deriving DecidableEq, Repr

/-- validateRegex (rule-engine.ts): length cap 200, the ReDoS catalog, then
a compile check (compiles abstracts new RegExp(pattern) succeeding). -/
def validateRegex (compiles : String → Bool) (pattern : String) :
    RegexValidation :=
  if pattern.length > 200 then
    .invalid "Regex pattern too long (max 200 characters)"
  else if redosHit pattern then
    .invalid "Regex pattern may cause performance issues"
  else if compiles pattern then .valid
  else .invalid "Invalid regex"

/-- CreateRuleBody (types/index.ts). -/
structure CreateRuleBody where
  name : String
  priority : Option Int := none
  conditions : RuleConditions
  action : RuleAction
deriving DecidableEq, Repr

/-- Outcome of createRule. -/
inductive CreateRuleOutcome
  | created (r : RuleDoc)
  | rejected (msg : String)
deriving DecidableEq, Repr

/-- Whether the conditions bag has no keys (Object.keys length zero, for a
body whose supplied keys are the non-none fields). -/
def conditionsEmpty (c : RuleConditions) : Bool :=
  c.merchantExact.isNone && c.merchantContains.isNone &&
    c.merchantRegex.isNone && c.descriptionContains.isNone &&
    c.amountMin.isNone && c.amountMax.isNone && c.accountId.isNone

/-- createRule (rules-service.ts): the 100-rule cap, the nonempty-conditions
check, the merchantRegex check — which only attempts new RegExp and never
calls validateRegex — the action check, then the clamped priority (default
500 for user rules, 300 for suggestion-sourced ones). -/
def createRule (compiles : String → Bool) (existingCount : Nat)
    (uid : String) (body : CreateRuleBody) (source : String) :
    CreateRuleOutcome :=
  if existingCount ≥ 100 then
    .rejected "Maximum of 100 rules allowed per user"
  else if conditionsEmpty body.conditions then
    .rejected "At least one condition is required"
  else if truthyStr body.conditions.merchantRegex &&
      !compiles (body.conditions.merchantRegex.getD "") then
    .rejected "Invalid regex pattern in merchantRegex"
  else if !truthyStr (some body.action.categoryId) then
    .rejected "action.categoryId is required"
  else
    .created
      { uid := uid, name := body.name, enabled := true,
        priority :=
          min (max (body.priority.getD
            (if source = "suggestion" then 300 else 500)) 1) 1000,
        conditions := body.conditions, action := body.action }

/-- A syntactically harmless pattern of length 201. -/
def pattern201 : String := String.mk (List.replicate 201 'a')

/-- A syntactically harmless pattern of length 200. -/
def pattern200 : String := String.mk (List.replicate 200 'a')

set_option maxRecDepth 4000 in
/-- C9 evaluated on the code: validateRegex does implement the length-200
boundary and rejects the catalogued ReDoS shapes, but createRule never
invokes it — its only regex check is compilability — so a valid regex of
length 201 is accepted at rule-create time, where the claim requires a
validation error.  The compiles oracle is constantly true, matching new
RegExp on these all-letter patterns. -/
theorem regex_validation_C9 :
    validateRegex (fun _ => true) pattern200 = .valid ∧
    validateRegex (fun _ => true) pattern201 =
      .invalid "Regex pattern too long (max 200 characters)" ∧
    validateRegex (fun _ => true) "(.*)+" =
      .invalid "Regex pattern may cause performance issues" ∧
    validateRegex (fun _ => true) "(.+)*" =
      .invalid "Regex pattern may cause performance issues" ∧
    createRule (fun _ => true) 0 "u1"
        { name := "evil", conditions := { merchantRegex := some pattern201 },
          action := { categoryId := "c1" } } "user" =
      .created
        { uid := "u1", name := "evil", enabled := true, priority := 500,
          conditions := { merchantRegex := some pattern201 },
          action := { categoryId := "c1" } } := by
  refine ⟨?_, ?_, ?_, ?_, ?_⟩ <;> decide

/-! ## Pagination cursor and transaction listing (routes/transactions.ts
parseCursor, services/transaction-service.ts listTransactions) -/

/-- The raw payload of a cursor after base64 decoding and JSON parsing:
optional postedAt and id fields (an absent field is none; a present falsy
field is the empty string). -/
structure RawCursor where
  postedAt : Option String
  id : Option String
deriving DecidableEq, Repr

/-- What parseCursor returns for a present, decodable cursor with truthy
fields: the id and the result of new Date on the postedAt string; none
models an Invalid Date, which new Date yields without throwing. -/
structure CursorData where
  postedAt : Option DateYMD
  id : String
deriving DecidableEq, Repr

/-- parseCursor (routes/transactions.ts): null for an absent or falsy
cursor; null when the base64/JSON chain throws (the decode parameter
returns none exactly then); null when either decoded field is missing or
falsy; otherwise the pair is returned with new Date applied to the
postedAt string (the parseDate parameter: none for an Invalid Date) -
even when that date is invalid, parseCursor itself returns it non-null. -/
def parseCursor (decode : String → Option RawCursor)
    (parseDate : String → Option DateYMD) (cursor : Option String) :
    Option CursorData :=
  if !truthyStr cursor then none
  else
    match decode (cursor.getD "") with
    | none => none
    | some raw =>
      if !truthyStr raw.postedAt || !truthyStr raw.id then none
      else
        some
          { postedAt := parseDate (raw.postedAt.getD "")
            id := raw.id.getD "" }

/-- Lexicographic order on dates (Boolean, strict). -/
def dateLT (a b : DateYMD) : Bool :=
  a.year < b.year || (a.year == b.year &&
    (a.month < b.month || (a.month == b.month && a.day < b.day)))

/-- Lexicographic order on dates (Boolean, non-strict). -/
def dateLE (a b : DateYMD) : Bool := dateLT a b || a == b

/-- The query fields of GET /transactions that listTransactions consumes;
the month / startDate / endDate resolution is kept abstract as an already
resolved inclusive date range. -/
structure ListQuery where
  fromDate : DateYMD
  toDate : DateYMD
  categoryId : Option String := none
  accountId : Option String := none
  merchant : Option String := none
  minAmount : Option Int := none
  maxAmount : Option Int := none
  tags : Option String := none
  uncategorized : Bool := false
  limit : Option Nat := none
  cursor : Option String := none
deriving DecidableEq, Repr

/-- Stable insertion into a postedAt-descending list. -/
def insertByDateDesc (t : TxRec) : List TxRec → List TxRec
  | [] => [t]
  | s :: ss =>
    if dateLT s.postedAt t.postedAt then t :: s :: ss
    else s :: insertByDateDesc t ss

/-- Stable sort by postedAt descending (the orderBy of the query). -/
def sortByPostedDesc : List TxRec → List TxRec
  | [] => []
  | t :: ts => insertByDateDesc t (sortByPostedDesc ts)

/-- Splitting a character list on a separator. -/
def splitCL (sep : Char) : List Char → List Char → List (List Char)
  | [], acc => [acc.reverse]
  | c :: cs, acc =>
    if c == sep then acc.reverse :: splitCL sep cs []
    else splitCL sep cs (c :: acc)

/-- Models String.prototype.split with a one-character separator. -/
def jsSplit (s : String) (sep : Char) : List String :=
  (splitCL sep s.data []).map String.mk

/-- The JavaScript whitespace characters relevant to the data handled. -/
def isJsSpace (c : Char) : Bool :=
  c == ' ' || c == '\t' || c == '\n' || c == '\r' ||
    c == Char.ofNat 11 || c == Char.ofNat 12

/-- Models String.prototype.trim. -/
def jsTrim (s : String) : String :=
  String.mk (((s.data.dropWhile isJsSpace).reverse.dropWhile
    isJsSpace).reverse)

def MAX_LIMIT : Nat := 100

def DEFAULT_LIMIT : Nat := 50

/-- Result of listTransactions: the page and the hasMore flag (the category
name enrichment and next-page cursor encoding are presentation and are
omitted). -/
structure ListResult where
  transactions : List TxRec
  hasMore : Bool
deriving DecidableEq, Repr

/-- listTransactions (transaction-service.ts): owner plus date-range query
with optional equality filters, postedAt-descending order, cursor applied
with startAfter on Timestamp.fromDate of the cursor's postedAt, limit+1
fetch for hasMore, then the client-side filters (split parents excluded,
merchant substring, inclusive amount range, tags).  Timestamp.fromDate
throws on an Invalid Date, so the result is optional: none models that
thrown error (surfaced by the route as a generic 500). -/
def listTransactions (decode : String → Option RawCursor)
    (parseDate : String → Option DateYMD) (store : TxStore)
    (uid : String) (q : ListQuery) : Option ListResult :=
  let limit := min (q.limit.getD DEFAULT_LIMIT) MAX_LIMIT
  let base := store.filter (fun kv =>
    kv.2.uid == uid && dateLE q.fromDate kv.2.postedAt &&
    dateLE kv.2.postedAt q.toDate &&
    (q.categoryId.elim true (fun c => kv.2.categoryId == some c)) &&
    (q.accountId.elim true (fun a => kv.2.accountId == a)) &&
    (!q.uncategorized || kv.2.categoryId == none))
  let sorted : List TxRec := sortByPostedDesc (base.map (fun kv => kv.2))
  let afterCursor : Option (List TxRec) :=
    match parseCursor decode parseDate q.cursor with
    | some c =>
      match c.postedAt with
      | none => none
      | some d => some (sorted.filter (fun t => dateLT t.postedAt d))
    | none => some sorted
  match afterCursor with
  | none => none
  | some lst =>
    let fetched := lst.take (limit + 1)
    let hasMore := decide (fetched.length > limit)
    let resultDocs := if hasMore then fetched.take limit else fetched
    let f1 := resultDocs.filter (fun t => !t.isSplitParent)
    let f2 := q.merchant.elim f1 (fun m =>
      f1.filter (fun t => strIncludes t.merchantNormalized (jsToUpper m)))
    let f3 := q.minAmount.elim f2 (fun mn =>
      f2.filter (fun t => decide (t.amount ≥ mn)))
    let f4 := q.maxAmount.elim f3 (fun mx =>
      f3.filter (fun t => decide (t.amount ≤ mx)))
    let f5 :=
      match q.tags with
      | none => f4
      | some ts =>
        let searchTags :=
          (jsSplit ts ',').map (fun t => jsToLower (jsTrim t))
        f4.filter (fun t => searchTags.all
          (fun tag => t.tags.any (fun tg => jsToLower tg == tag)))
    some { transactions := f5, hasMore := hasMore }

/-- A transaction of owner u1 inside the queried range, for the C8
scenario. -/
def c8Tx : TxRec :=
  { uid := "u1", accountId := "a1", importId := "i1",
    postedAt := ⟨2024, 1, 15⟩, amount := -5000, description := "COFFEE",
    merchantRaw := "COFFEE", merchantNormalized := "COFFEE",
    categoryId := none, autoCategory := none, manualOverride := false,
    explainability := { reason := .no_match, confidence := 0 },
    notes := none, tags := [], isSplitParent := false, splitParentId := none,
    txKey := "k1" }

/-- A January 2024 listing query carrying the given cursor. -/
def c8Query (cur : Option String) : ListQuery :=
  { fromDate := ⟨2024, 1, 1⟩, toDate := ⟨2024, 1, 31⟩, cursor := cur }

/-- Counterexample to C8 as stated: a cursor the base64/JSON chain rejects
(decode returns none on this garbage string) is silently ignored — the
call succeeds and returns the same ordinary page as with no cursor at all,
instead of being rejected with an InvalidCursor error. -/
theorem invalid_cursor_C8_counterexample :
    listTransactions (fun _ => none) (fun _ => none) [("t1", c8Tx)] "u1"
        (c8Query (some "@@not-base64@@")) =
      listTransactions (fun _ => none) (fun _ => none) [("t1", c8Tx)] "u1"
        (c8Query none) ∧
    listTransactions (fun _ => none) (fun _ => none) [("t1", c8Tx)] "u1"
        (c8Query (some "@@not-base64@@")) =
      some { transactions := [c8Tx], hasMore := false } :=
  ⟨rfl, rfl⟩

/-- C8 amended: a cursor rejected by the base64/JSON chain, or decoding to
an object with a missing or falsy postedAt or id, is treated exactly as an
absent cursor — the listing succeeds with the same page; a cursor whose
truthy postedAt does not parse as a date passes parseCursor as an Invalid
Date and the listing then throws in Timestamp.fromDate (surfaced as a
generic 500) — the only error path, and not an InvalidCursor rejection;
with a parsable date the listing succeeds. -/
theorem invalid_cursor_C8 (decode : String → Option RawCursor)
    (parseDate : String → Option DateYMD) (store : TxStore) (uid : String)
    (q : ListQuery) (c : String) (hq : q.cursor = some c) (hc : c ≠ "") :
    (decode c = none →
      listTransactions decode parseDate store uid q =
        listTransactions decode parseDate store uid
          { q with cursor := none }) ∧
    (∀ raw, decode c = some raw →
      truthyStr raw.postedAt = false ∨ truthyStr raw.id = false →
      listTransactions decode parseDate store uid q =
        listTransactions decode parseDate store uid
          { q with cursor := none }) ∧
    (∀ raw, decode c = some raw → truthyStr raw.postedAt = true →
      truthyStr raw.id = true → parseDate (raw.postedAt.getD "") = none →
      listTransactions decode parseDate store uid q = none) ∧
    (∀ raw d0, decode c = some raw → truthyStr raw.postedAt = true →
      truthyStr raw.id = true →
      parseDate (raw.postedAt.getD "") = some d0 →
      listTransactions decode parseDate store uid q ≠ none) := by
  have hsc : truthyStr (some c) = true := by simp [truthyStr, hc]
  have hsn : truthyStr (none : Option String) = false := rfl
  refine ⟨?_, ?_, ?_, ?_⟩
  · intro hd
    simp [listTransactions, parseCursor, hq, hd, hsc, hsn]
  · intro raw hd hfal
    rcases hfal with h | h
    · simp [listTransactions, parseCursor, hq, hd, h, hsc, hsn]
    · simp [listTransactions, parseCursor, hq, hd, h, hsc, hsn]
  · intro raw hd htp hti hpd
    simp [listTransactions, parseCursor, hq, hd, htp, hti, hpd, hsc, hsn]
  · intro raw d0 hd htp hti hpd
    simp [listTransactions, parseCursor, hq, hd, htp, hti, hpd, hsc, hsn]

/-- Witness for the amended C8: at a concrete store, a cursor decoding to
a truthy pair whose postedAt is not a parsable date makes the listing
throw (none). -/
theorem invalid_cursor_C8_witness :
    listTransactions
        (fun _ => some { postedAt := some "not-a-date", id := some "x" })
        (fun _ => none) [("t1", c8Tx)] "u1" (c8Query (some "cur")) =
      none :=
  (invalid_cursor_C8
      (fun _ => some { postedAt := some "not-a-date", id := some "x" })
      (fun _ => none) [("t1", c8Tx)] "u1" (c8Query (some "cur")) "cur"
      rfl (by decide)).2.2.1
    { postedAt := some "not-a-date", id := some "x" } rfl (by decide)
    (by decide) rfl

/-! ## Deterministic CSV parser (import-service.ts parseCSV) -/

/-- Models replace of all double quotes with the empty string. -/
def stripQuotes (s : String) : String :=
  String.mk (s.data.filter (fun c => !(c == '"')))

/-- Models the amount cleanup replace: removes double quotes, commas,
whitespace and dollar signs. -/
def stripAmountJunk (s : String) : String :=
  String.mk (s.data.filter (fun c =>
    !(c == '"' || c == ',' || isJsSpace c || c == '$')))

/-- The column aliases of the parser, exactly as listed in the source.  Note
that debit and credit appear in the combined-amount alias list. -/
def dateAliases : List String :=
  ["date", "posted date", "transaction date", "posting date"]

def amountAliases : List String :=
  ["amount", "debit", "credit", "transaction amount"]

def descAliases : List String :=
  ["description", "merchant", "name", "transaction description", "memo"]

def debitAliases : List String := ["debit", "withdrawal"]

def creditAliases : List String := ["credit", "deposit"]

/-- Resolved column indices (findIndex results; none models -1). -/
structure CsvCols where
  dateIdx : Option Nat
  amountIdx : Option Nat
  descIdx : Option Nat
  debitIdx : Option Nat
  creditIdx : Option Nat
deriving DecidableEq, Repr

/-- Header resolution: split on commas, normalize each header with trim,
toLowerCase and quote removal, then findIndex against each alias list. -/
def findCols (headers : List String) : CsvCols :=
  { dateIdx := headers.findIdx? (fun h => dateAliases.contains h)
    amountIdx := headers.findIdx? (fun h => amountAliases.contains h)
    descIdx := headers.findIdx? (fun h => descAliases.contains h)
    debitIdx := headers.findIdx? (fun h => debitAliases.contains h)
    creditIdx := headers.findIdx? (fun h => creditAliases.contains h) }

/-- The quote-aware value splitter of the row loop: toggles inQuotes on a
double quote (dropping it), splits on commas outside quotes, trims each
value as it is pushed. -/
def csvValues : List Char → List Char → Bool → List String
  | [], current, _ => [jsTrim (String.mk current.reverse)]
  | c :: cs, current, inQuotes =>
    if c == '"' then csvValues cs current (!inQuotes)
    else if (c == ',') && !inQuotes then
      jsTrim (String.mk current.reverse) :: csvValues cs [] inQuotes
    else csvValues cs (c :: current) inQuotes

/-- The values array parsed from one row line. -/
def rowValues (line : String) : List String := csvValues line.data [] false

/-- One leg of the separate debit/credit pair: missing column (findIndex -1,
so an out-of-range read) or an empty cleaned value falls back to the string
0, mirroring the or-zero defaults. -/
def pairFieldStr (values : List String) (idx : Option Nat) : String :=
  match idx with
  | none => "0"
  | some i =>
    let s := stripAmountJunk (values.getD i "")
    if s = "" then "0" else s

/-- The amount of one row.  cents abstracts Math.round(parseFloat(s) * 100):
none models a NaN result.  With a combined amount column the cleaned cell is
parsed directly (empty cell or NaN drops the row); without one, the amount
is credit minus debit, each leg parsed with NaN collapsing to 0. -/
def rowAmount (cents : String → Option Int) (cols : CsvCols)
    (values : List String) : Option Int :=
  match cols.amountIdx with
  | some ai =>
    let amountStr := stripAmountJunk (values.getD ai "")
    if amountStr = "" then none else cents amountStr
  | none =>
    some ((cents (pairFieldStr values cols.creditIdx)).getD 0 -
      (cents (pairFieldStr values cols.debitIdx)).getD 0)

/-- The description of one row: the quote-stripped cell, or Unknown when the
column is missing or the cell empty. -/
def rowDescription (cols : CsvCols) (values : List String) : String :=
  let d :=
    match cols.descIdx with
    | none => ""
    | some di => stripQuotes (values.getD di "")
  if d = "" then "Unknown" else d

/-- One iteration of the row loop of parseCSV: skip blank lines, drop the
row when the date cell is empty or unparsable (parseDate abstracts new Date
validity) and when the computed amount is NaN or zero; otherwise emit the
parsed transaction with merchantRaw equal to the description. -/
def parseCSVRow (parseDate : String → Option DateYMD)
    (cents : String → Option Int) (cols : CsvCols) (line : String) :
    Option ParsedTransaction :=
  if jsTrim line = "" then none
  else
    match cols.dateIdx with
    | none => none
    | some di =>
      let dateStr := stripQuotes ((rowValues line).getD di "")
      if dateStr = "" then none
      else
        match parseDate dateStr with
        | none => none
        | some postedAt =>
          match rowAmount cents cols (rowValues line) with
          | none => none
          | some a =>
            if a = 0 then none
            else
              some { postedAt := postedAt, amount := a,
                     description := rowDescription cols (rowValues line),
                     merchantRaw := rowDescription cols (rowValues line) }

/-- Header analysis of parseCSV: trimmed content split on newlines, at least
two lines, a truthy header line, and a usable column assignment (a date
column and either a combined amount column or a debit-pair column). -/
def csvHeaderCols (content : String) : Option CsvCols :=
  let lines := jsSplit (jsTrim content) '\n'
  if lines.length < 2 then none
  else
    let headerLine := lines.getD 0 ""
    if headerLine = "" then none
    else
      let cols := findCols ((jsSplit headerLine ',').map
        (fun h => stripQuotes (jsToLower (jsTrim h))))
      if cols.dateIdx.isNone ||
          (cols.amountIdx.isNone && cols.debitIdx.isNone) then none
      else some cols

/-- parseCSV (import-service.ts): resolve the header, then run the row loop
over the remaining lines. -/
def parseCSV (parseDate : String → Option DateYMD)
    (cents : String → Option Int) (content : String) :
    List ParsedTransaction :=
  match csvHeaderCols content with
  | none => []
  | some cols =>
    ((jsSplit (jsTrim content) '\n').drop 1).filterMap
      (parseCSVRow parseDate cents cols)

/-- Digits-only string to number (reference decoder for concrete inputs). -/
def digitsToNat (l : List Char) : Option Nat :=
  if l.isEmpty || !(l.all (fun c => decide ('0' ≤ c) && decide (c ≤ '9')))
  then none
  else some (l.foldl (fun n c => n * 10 + (c.toNat - 48)) 0)

/-- Reference date parser for the concrete inputs: accepts YYYY-MM-DD, as
new Date does. -/
def simpleISODate (s : String) : Option DateYMD :=
  match jsSplit s '-' with
  | [y, m, d] =>
    match digitsToNat y.data, digitsToNat m.data, digitsToNat d.data with
    | some yn, some mn, some dn => some ⟨yn, mn, dn⟩
    | _, _, _ => none
  | _ => none

/-- Reference cents parser (unsigned): digits with at most two fraction
digits, as Math.round(parseFloat(s) * 100) yields on such inputs. -/
def simpleCentsNat (l : List Char) : Option Nat :=
  match splitCL '.' l [] with
  | [ip] => (digitsToNat ip).map (fun n => n * 100)
  | [ip, fp] =>
    (digitsToNat ip).bind (fun n =>
      (digitsToNat fp).bind (fun f =>
        if fp.length = 1 then some (n * 100 + f * 10)
        else if fp.length = 2 then some (n * 100 + f)
        else none))
  | _ => none

/-- Reference signed cents parser for the concrete inputs. -/
def simpleCents (s : String) : Option Int :=
  match s.data with
  | '-' :: t => (simpleCentsNat t).map (fun n => -(n : Int))
  | t => (simpleCentsNat t).map (fun n => (n : Int))

example :
    parseCSV simpleISODate simpleCents
      "date,withdrawal,deposit,description\n2024-01-15,50.00,,Coffee" =
    [{ postedAt := ⟨2024, 1, 15⟩, amount := -5000, description := "Coffee",
       merchantRaw := "Coffee" }] := by decide

example :
    parseCSV simpleISODate simpleCents
      "date,amount,description\n2024-01-15,-50.00,COFFEE SHOP\nbad-date,10.00,X\n2024-01-16,0.00,ZERO" =
    [{ postedAt := ⟨2024, 1, 15⟩, amount := -5000,
       description := "COFFEE SHOP", merchantRaw := "COFFEE SHOP" }] := by
  decide

theorem parseCSVRow_inv (parseDate : String → Option DateYMD)
    (cents : String → Option Int) (cols : CsvCols) (line : String)
    (tx : ParsedTransaction)
    (h : parseCSVRow parseDate cents cols line = some tx) :
    ∃ di, cols.dateIdx = some di ∧
      parseDate (stripQuotes ((rowValues line).getD di "")) =
        some tx.postedAt ∧
      rowAmount cents cols (rowValues line) = some tx.amount ∧
      tx.amount ≠ 0 ∧
      tx.description = rowDescription cols (rowValues line) ∧
      tx.merchantRaw = rowDescription cols (rowValues line) := by
  simp only [parseCSVRow] at h
  split at h
  · simp at h
  · split at h
    · simp at h
    · rename_i di hdi
      split at h
      · simp at h
      · split at h
        · simp at h
        · rename_i postedAt hpd
          split at h
          · simp at h
          · rename_i a hra
            split at h
            · simp at h
            · rename_i ha
              injection h with h2
              subst h2
              exact ⟨di, hdi, hpd, hra, ha, rfl, rfl⟩

/-- Counterexample to C7 as stated: the header date,debit,credit,description
has no column named amount or transaction amount, yet the parser resolves
the combined-amount column to the debit column (since debit and credit are
in the combined-amount alias list) and emits +5000 for a 50.00 debit — not
credit minus debit, which would be -5000. -/
theorem parse_csv_pair_C7_counterexample :
    parseCSV simpleISODate simpleCents
        "date,debit,credit,description\n2024-01-15,50.00,,Coffee" =
      [{ postedAt := ⟨2024, 1, 15⟩, amount := 5000, description := "Coffee",
         merchantRaw := "Coffee" }] ∧
    (simpleCents (pairFieldStr (rowValues "2024-01-15,50.00,,Coffee")
          (some 2))).getD 0 -
        (simpleCents (pairFieldStr (rowValues "2024-01-15,50.00,,Coffee")
          (some 1))).getD 0 = -5000 ∧
    (5000 : Int) ≠ -5000 := by
  refine ⟨by decide, by decide, by decide⟩

/-- C7 amended: the separate debit/credit pair path is taken exactly when
the header carries none of the combined-amount aliases (amount, debit,
credit, transaction amount) — in practice withdrawal/deposit columns — and
there each emitted row's amount is credit minus debit in cents; headers
with columns literally named debit or credit are treated as combined-amount
columns instead.  For every CSV, a row whose date cell is unparsable or
whose computed amount is zero is dropped, and every emitted transaction
comes from one body line of the document. -/
theorem parse_csv_pair_C7 (parseDate : String → Option DateYMD)
    (cents : String → Option Int) (content : String) :
    (∀ cols, csvHeaderCols content = some cols →
      ∀ tx ∈ parseCSV parseDate cents content,
        ∃ line ∈ (jsSplit (jsTrim content) '\n').drop 1,
          parseCSVRow parseDate cents cols line = some tx) ∧
    (∀ (cols : CsvCols) (line : String) (tx : ParsedTransaction),
      cols.amountIdx = none →
      parseCSVRow parseDate cents cols line = some tx →
      tx.amount =
        (cents (pairFieldStr (rowValues line) cols.creditIdx)).getD 0 -
        (cents (pairFieldStr (rowValues line) cols.debitIdx)).getD 0) ∧
    (∀ (cols : CsvCols) (line : String) (tx : ParsedTransaction),
      parseCSVRow parseDate cents cols line = some tx → tx.amount ≠ 0) ∧
    (∀ (cols : CsvCols) (line : String) (tx : ParsedTransaction),
      parseCSVRow parseDate cents cols line = some tx →
      ∃ di, cols.dateIdx = some di ∧
        parseDate (stripQuotes ((rowValues line).getD di "")) =
          some tx.postedAt) := by
  refine ⟨?_, ?_, ?_, ?_⟩
  · intro cols hc tx htx
    rw [parseCSV, hc] at htx
    obtain ⟨line, hline, hrow⟩ := List.mem_filterMap.mp htx
    exact ⟨line, hline, hrow⟩
  · intro cols line tx hnone hrow
    obtain ⟨di, _, _, hra, _, _, _⟩ :=
      parseCSVRow_inv parseDate cents cols line tx hrow
    rw [rowAmount, hnone] at hra
    exact ((Option.some.injEq _ _).mp hra).symm
  · intro cols line tx hrow
    obtain ⟨di, _, _, _, ha, _, _⟩ :=
      parseCSVRow_inv parseDate cents cols line tx hrow
    exact ha
  · intro cols line tx hrow
    obtain ⟨di, hdi, hpd, _, _, _, _⟩ :=
      parseCSVRow_inv parseDate cents cols line tx hrow
    exact ⟨di, hdi, hpd⟩

/-- Witness for the amended C7: on a withdrawal/deposit header the pair
path fires and the emitted amount is credit minus debit (-5000 for a 50.00
withdrawal). -/
theorem parse_csv_pair_C7_witness :
    ({ postedAt := ⟨2024, 1, 15⟩, amount := -5000, description := "Coffee",
       merchantRaw := "Coffee" } : ParsedTransaction).amount =
      (simpleCents (pairFieldStr (rowValues "2024-01-15,50.00,,Coffee")
        (findCols ["date", "withdrawal", "deposit",
          "description"]).creditIdx)).getD 0 -
      (simpleCents (pairFieldStr (rowValues "2024-01-15,50.00,,Coffee")
        (findCols ["date", "withdrawal", "deposit",
          "description"]).debitIdx)).getD 0 :=
  (parse_csv_pair_C7 simpleISODate simpleCents
      "date,withdrawal,deposit,description\n2024-01-15,50.00,,Coffee").2.1
    (findCols ["date", "withdrawal", "deposit", "description"])
    "2024-01-15,50.00,,Coffee"
    { postedAt := ⟨2024, 1, 15⟩, amount := -5000, description := "Coffee",
      merchantRaw := "Coffee" }
    (by decide) (by decide)

/-! ## Monthly aggregator (services/analytics-service.ts
getMonthlyOverview) -/

/-- The category fields the aggregator reads. -/
structure CategoryInfo where
  name : String
  icon : String
  color : String
deriving DecidableEq, Repr

/-- Per-category accumulator of the single aggregation pass. -/
structure CatTotals where
  amount : Int
  count : Nat
deriving DecidableEq, Repr

/-- Per-merchant accumulator (expenses only). -/
structure MerchTotals where
  amount : Int
  count : Nat
  categoryId : Option String
deriving DecidableEq, Repr

/-- Per-day accumulator. -/
structure DayTotals where
  income : Int
  expenses : Int
  count : Nat
deriving DecidableEq, Repr

/-- The whole accumulator state of the aggregation loop.  The JavaScript
Maps preserve insertion order; they are modelled as association lists where
a new key is appended at the end. -/
structure AggState where
  totalIncome : Int
  totalExpenses : Int
  transactionCount : Nat
  categorizedCount : Nat
  uncategorizedCount : Nat
  manualOverrideCount : Nat
  categoryTotals : List (Option String × CatTotals)
  merchantTotals : List (String × MerchTotals)
  dailyTotals : List (String × DayTotals)
deriving DecidableEq, Repr

/-- The empty accumulator. -/
def emptyAgg : AggState :=
  { totalIncome := 0, totalExpenses := 0, transactionCount := 0,
    categorizedCount := 0, uncategorizedCount := 0,
    manualOverrideCount := 0, categoryTotals := [], merchantTotals := [],
    dailyTotals := [] }

/-- Map.get-with-default followed by Map.set: update the value in place when
the key exists, append at the end otherwise. -/
def bumpAssoc {κ v : Type} [BEq κ] (m : List (κ × v)) (k : κ) (d : v)
    (f : v → v) : List (κ × v) :=
  match m with
  | [] => [(k, f d)]
  | (k', v') :: rest =>
    if k' == k then (k', f v') :: rest
    else (k', v') :: bumpAssoc rest k d f

/-- The per-category value update of one document. -/
def catUpd (t : TxRec) (v : CatTotals) : CatTotals :=
  ⟨v.amount + t.amount, v.count + 1⟩

/-- The per-merchant value update of one document (nullish coalescing on the
categoryId). -/
def merchUpd (t : TxRec) (v : MerchTotals) : MerchTotals :=
  ⟨v.amount + t.amount, v.count + 1,
    t.categoryId.orElse (fun _ => v.categoryId)⟩

/-- The per-day value update of one document. -/
def dayUpd (t : TxRec) (v : DayTotals) : DayTotals :=
  ⟨v.income + (if t.amount > 0 then t.amount else 0),
    v.expenses + (if t.amount < 0 then t.amount else 0), v.count + 1⟩

/-- The category-map effect of one document. -/
def catStep (m : List (Option String × CatTotals)) (t : TxRec) :
    List (Option String × CatTotals) :=
  bumpAssoc m t.categoryId ⟨0, 0⟩ (catUpd t)

/-- The merchant-map effect of one document (expenses only). -/
def merchStep (m : List (String × MerchTotals)) (t : TxRec) :
    List (String × MerchTotals) :=
  if t.amount < 0 then
    bumpAssoc m t.merchantNormalized ⟨0, 0, none⟩ (merchUpd t)
  else m

/-- The daily-map effect of one document, keyed by the ISO date string. -/
def dayStep (m : List (String × DayTotals)) (t : TxRec) :
    List (String × DayTotals) :=
  bumpAssoc m (isoDate t.postedAt) ⟨0, 0, 0⟩ (dayUpd t)

/-- One iteration of the aggregation loop (analytics-service.ts, the
for-of over the month's documents). -/
def aggStep (s : AggState) (t : TxRec) : AggState :=
  let s1 := { s with transactionCount := s.transactionCount + 1 }
  let s2 :=
    if t.amount > 0 then { s1 with totalIncome := s1.totalIncome + t.amount }
    else { s1 with totalExpenses := s1.totalExpenses + t.amount }
  let s3 :=
    if truthyStr t.categoryId then
      { s2 with categorizedCount := s2.categorizedCount + 1 }
    else { s2 with uncategorizedCount := s2.uncategorizedCount + 1 }
  let s4 :=
    if t.manualOverride then
      { s3 with manualOverrideCount := s3.manualOverrideCount + 1 }
    else s3
  let s5 := { s4 with categoryTotals := catStep s4.categoryTotals t }
  let s6 := { s5 with merchantTotals := merchStep s5.merchantTotals t }
  { s6 with dailyTotals := dayStep s6.dailyTotals t }

/-- One row of the category breakdown. -/
structure CategorySpending where
  categoryId : Option String
  categoryName : String
  categoryIcon : String
  categoryColor : String
  totalAmount : Int
  transactionCount : Nat
  percentageOfTotal : ℚ
deriving DecidableEq, Repr

/-- One row of the merchant breakdown. -/
structure MerchantSpending where
  merchantNormalized : String
  totalAmount : Int
  transactionCount : Nat
  categoryId : Option String
  categoryName : Option String
deriving DecidableEq, Repr

/-- One day of the daily series. -/
structure DailySpending where
  date : String
  income : Int
  expenses : Int
  net : Int
  transactionCount : Nat
deriving DecidableEq, Repr

/-- The MonthlyOverview payload. -/
structure MonthlyOverview where
  month : String
  totalIncome : Int
  totalExpenses : Int
  netAmount : Int
  transactionCount : Nat
  categorizedCount : Nat
  uncategorizedCount : Nat
  manualOverrideCount : Nat
  categoryBreakdown : List CategorySpending
  topMerchants : List MerchantSpending
  dailySpending : List DailySpending
deriving DecidableEq, Repr

/-- Gregorian leap years. -/
def isLeapYear (y : Nat) : Bool :=
  (y % 4 == 0 && y % 100 != 0) || y % 400 == 0

/-- Days in a month (end.getDate() of the month range). -/
def daysInMonth (y m : Nat) : Nat :=
  if m = 2 then (if isLeapYear y then 29 else 28)
  else if m = 4 ∨ m = 6 ∨ m = 9 ∨ m = 11 then 30
  else 31

/-- Stable insertion sort by a Nat-valued key, descending; mirrors the
stable JS sort with comparator Math.abs(b) - Math.abs(a). -/
def insertByKeyDesc {α : Type} (key : α → Nat) (x : α) : List α → List α
  | [] => [x]
  | y :: ys =>
    if key x > key y then x :: y :: ys else y :: insertByKeyDesc key x ys

def sortByKeyDesc {α : Type} (key : α → Nat) : List α → List α
  | [] => []
  | x :: xs => insertByKeyDesc key x (sortByKeyDesc key xs)

/-- The documents the Firestore query returns for the month: owner match,
postedAt inside [first, last] second of the month — at the embedding's day
granularity, the same year and month — and isSplitParent false. -/
def monthTxs (docs : List TxRec) (uid : String) (y m : Nat) : List TxRec :=
  docs.filter (fun t => t.uid == uid && t.postedAt.year == y &&
    t.postedAt.month == m && !t.isSplitParent)

/-- Category lookup by id, under the truthiness guard of the source
(catId ? categoryMap.get(catId) : null). -/
def lookupCategory (categories : List (String × CategoryInfo))
    (catId : Option String) : Option CategoryInfo :=
  if truthyStr catId then List.lookup (catId.getD "") categories else none

/-- The category breakdown rows before sorting: expense buckets only, with
Uncategorized defaults for a null (or unknown) category and the percentage
of total absolute expenses. -/
def categoryBreakdownRows (categories : List (String × CategoryInfo))
    (totalAbsExpenses : Nat) (catTotals : List (Option String × CatTotals)) :
    List CategorySpending :=
  catTotals.filterMap (fun kv =>
    if kv.2.amount ≥ 0 then none
    else
      some
        { categoryId := kv.1
          categoryName := ((lookupCategory categories kv.1).map
            (fun c => c.name)).getD "Uncategorized"
          categoryIcon := ((lookupCategory categories kv.1).map
            (fun c => c.icon)).getD "?"
          categoryColor := ((lookupCategory categories kv.1).map
            (fun c => c.color)).getD "#6B7280"
          totalAmount := kv.2.amount
          transactionCount := kv.2.count
          percentageOfTotal :=
            if totalAbsExpenses > 0 then
              ((kv.2.amount.natAbs : ℚ) / (totalAbsExpenses : ℚ)) * 100
            else 0 })

/-- The merchant breakdown rows before sorting and the top-10 cut. -/
def merchantRows (categories : List (String × CategoryInfo))
    (merchTotals : List (String × MerchTotals)) : List MerchantSpending :=
  merchTotals.map (fun kv =>
    { merchantNormalized := kv.1
      totalAmount := kv.2.amount
      transactionCount := kv.2.count
      categoryId := kv.2.categoryId
      categoryName :=
        (lookupCategory categories kv.2.categoryId).map (fun c => c.name) })

/-- The sorted merchant list before splice(topMerchantsLimit). -/
def sortedMerchants (categories : List (String × CategoryInfo))
    (docs : List TxRec) (uid : String) (y m : Nat) :
    List MerchantSpending :=
  sortByKeyDesc (fun e => e.totalAmount.natAbs)
    (merchantRows categories
      ((monthTxs docs uid y m).foldl aggStep emptyAgg).merchantTotals)

/-- getMonthlyOverview (analytics-service.ts): one aggregation pass over the
month's non-split-parent documents, then the derived breakdowns: expense
category buckets with percentages of total absolute expenses, sorted by
absolute amount; expense merchants sorted by absolute amount and cut to the
limit; and a daily series zero-filled over every day of the month. -/
def getMonthlyOverview (categories : List (String × CategoryInfo))
    (docs : List TxRec) (uid : String) (y m : Nat)
    (topMerchantsLimit : Nat) : MonthlyOverview :=
  let s := (monthTxs docs uid y m).foldl aggStep emptyAgg
  let totalAbsExpenses := s.totalExpenses.natAbs
  { month := pad4 y ++ "-" ++ pad2 m
    totalIncome := s.totalIncome
    totalExpenses := s.totalExpenses
    netAmount := s.totalIncome + s.totalExpenses
    transactionCount := s.transactionCount
    categorizedCount := s.categorizedCount
    uncategorizedCount := s.uncategorizedCount
    manualOverrideCount := s.manualOverrideCount
    categoryBreakdown :=
      sortByKeyDesc (fun e => e.totalAmount.natAbs)
        (categoryBreakdownRows categories totalAbsExpenses s.categoryTotals)
    topMerchants :=
      (sortedMerchants categories docs uid y m).take topMerchantsLimit
    dailySpending :=
      (List.range (daysInMonth y m)).map (fun d =>
        let key := isoDate ⟨y, m, d + 1⟩
        let v := (List.lookup key s.dailyTotals).getD ⟨0, 0, 0⟩
        { date := key, income := v.income, expenses := v.expenses,
          net := v.income + v.expenses, transactionCount := v.count }) }

theorem lookup_bumpAssoc_self {κ v : Type} [BEq κ] [LawfulBEq κ]
    (m : List (κ × v)) (k : κ) (d : v) (f : v → v) :
    List.lookup k (bumpAssoc m k d f) = some (f ((List.lookup k m).getD d)) := by
  induction m with
  | nil => simp [bumpAssoc, List.lookup]
  | cons kv rest ih =>
    obtain ⟨k0, v0⟩ := kv
    rw [bumpAssoc]
    by_cases h : k0 = k
    · subst h
      simp [List.lookup]
    · have h1 : (k0 == k) = false := beq_eq_false_iff_ne.mpr h
      have h2 : (k == k0) = false := beq_eq_false_iff_ne.mpr (Ne.symm h)
      rw [if_neg (by simp [h1])]
      have hr : List.lookup k ((k0, v0) :: rest) = List.lookup k rest := by
        rw [List.lookup, h2]
      rw [hr, List.lookup, h2]
      exact ih

theorem lookup_bumpAssoc_ne {κ v : Type} [BEq κ] [LawfulBEq κ]
    (m : List (κ × v)) (k k' : κ) (d : v) (f : v → v)
    (h : (k' == k) = false) :
    List.lookup k' (bumpAssoc m k d f) = List.lookup k' m := by
  induction m with
  | nil => simp [bumpAssoc, List.lookup, h]
  | cons kv rest ih =>
    obtain ⟨k0, v0⟩ := kv
    rw [bumpAssoc]
    by_cases h0 : k0 = k
    · subst h0
      rw [if_pos (by simp)]
      have e1 : List.lookup k' ((k0, f v0) :: rest) =
          List.lookup k' rest := by rw [List.lookup, h]
      have e2 : List.lookup k' ((k0, v0) :: rest) =
          List.lookup k' rest := by rw [List.lookup, h]
      rw [e1, e2]
    · rw [if_neg (by simp [beq_eq_false_iff_ne.mpr h0])]
      by_cases h1 : (k' == k0) = true
      · have e1 : List.lookup k' ((k0, v0) :: bumpAssoc rest k d f) =
            some v0 := by rw [List.lookup, h1]
        have e2 : List.lookup k' ((k0, v0) :: rest) = some v0 := by
          rw [List.lookup, h1]
        rw [e1, e2]
      · have h1f : (k' == k0) = false := by
          revert h1
          cases k' == k0 <;> simp
        have e1 : List.lookup k' ((k0, v0) :: bumpAssoc rest k d f) =
            List.lookup k' (bumpAssoc rest k d f) := by
          rw [List.lookup, h1f]
        have e2 : List.lookup k' ((k0, v0) :: rest) =
            List.lookup k' rest := by rw [List.lookup, h1f]
        rw [e1, e2]
        exact ih

theorem mem_keys_bumpAssoc {κ v : Type} [BEq κ] [LawfulBEq κ]
    (m : List (κ × v)) (k k0 : κ) (d : v) (f : v → v) :
    k0 ∈ (bumpAssoc m k d f).map Prod.fst ↔
      k0 ∈ m.map Prod.fst ∨ k0 = k := by
  induction m with
  | nil => simp [bumpAssoc]
  | cons kv rest ih =>
    obtain ⟨k1, v1⟩ := kv
    rw [bumpAssoc]
    by_cases h : k1 = k
    · subst h
      rw [if_pos (by simp)]
      simp only [List.map, List.mem_cons]
      constructor
      · intro hc
        rcases hc with hc | hc
        · exact Or.inl (Or.inl hc)
        · exact Or.inl (Or.inr hc)
      · intro hc
        rcases hc with (hc | hc) | hc
        · exact Or.inl hc
        · exact Or.inr hc
        · exact Or.inl hc
    · rw [if_neg (by simp [beq_eq_false_iff_ne.mpr h])]
      simp only [List.map, List.mem_cons, ih]
      tauto

/-- All keys of an association list are distinct. -/
def KeysNodup {κ v : Type} (m : List (κ × v)) : Prop :=
  (m.map Prod.fst).Nodup

theorem keysNodup_bumpAssoc {κ v : Type} [BEq κ] [LawfulBEq κ]
    (m : List (κ × v)) (k : κ) (d : v) (f : v → v) (h : KeysNodup m) :
    KeysNodup (bumpAssoc m k d f) := by
  induction m with
  | nil => simp [bumpAssoc, KeysNodup]
  | cons kv rest ih =>
    obtain ⟨k0, v0⟩ := kv
    rw [KeysNodup, List.map, List.nodup_cons] at h
    rw [bumpAssoc]
    by_cases h0 : k0 = k
    · subst h0
      rw [if_pos (by simp)]
      rw [KeysNodup, List.map, List.nodup_cons]
      exact h
    · rw [if_neg (by simp [beq_eq_false_iff_ne.mpr h0])]
      rw [KeysNodup, List.map, List.nodup_cons]
      refine ⟨?_, ih h.2⟩
      intro hc
      rcases (mem_keys_bumpAssoc rest k k0 d f).mp hc with hc | hc
      · exact h.1 hc
      · exact h0 hc

theorem lookup_of_mem_keysNodup {κ v : Type} [BEq κ] [LawfulBEq κ]
    (m : List (κ × v)) (k : κ) (v0 : v) (hm : (k, v0) ∈ m)
    (h : KeysNodup m) : List.lookup k m = some v0 := by
  induction m with
  | nil => cases hm
  | cons kv rest ih =>
    obtain ⟨k1, v1⟩ := kv
    rw [KeysNodup, List.map, List.nodup_cons] at h
    rcases List.mem_cons.mp hm with he | hm'
    · obtain ⟨rfl, rfl⟩ := Prod.mk.injEq .. |>.mp he
      rw [List.lookup, beq_self_eq_true]
    · by_cases hk : k = k1
      · subst hk
        exact absurd (List.mem_map_of_mem Prod.fst hm') h.1
      · rw [List.lookup, beq_eq_false_iff_ne.mpr hk]
        exact ih hm' h.2

theorem mem_of_lookup_eq_some {κ v : Type} [BEq κ] [LawfulBEq κ]
    (m : List (κ × v)) (k : κ) (v0 : v)
    (h : List.lookup k m = some v0) : (k, v0) ∈ m := by
  induction m with
  | nil => simp [List.lookup] at h
  | cons kv rest ih =>
    obtain ⟨k1, v1⟩ := kv
    by_cases hk : (k == k1) = true
    · rw [List.lookup, hk] at h
      obtain rfl := Option.some_inj.mp h
      have : k = k1 := eq_of_beq hk
      subst this
      exact List.mem_cons_self _ _
    · have hkf : (k == k1) = false := by
        revert hk
        cases k == k1 <;> simp
      rw [List.lookup, hkf] at h
      exact List.mem_cons_of_mem _ (ih h)

theorem lookup_foldl_generic {κ v α : Type} [BEq κ] [LawfulBEq κ]
    (step : List (κ × v) → α → List (κ × v)) (cond : α → Bool)
    (key : α → κ) (d : v) (upd : α → v → v)
    (hstep : ∀ m a, step m a =
      if cond a then bumpAssoc m (key a) d (upd a) else m)
    (l : List α) (m : List (κ × v)) (k : κ) :
    (List.lookup k (l.foldl step m)).getD d =
      (l.filter (fun a => cond a && (key a == k))).foldl
        (fun acc a => upd a acc) ((List.lookup k m).getD d) := by
  induction l generalizing m with
  | nil => rfl
  | cons a l ih =>
    rw [List.foldl_cons, List.filter_cons, hstep]
    by_cases hc : cond a = true
    · rw [if_pos hc]
      by_cases hk : (key a == k) = true
      · have hfilter : (cond a && (key a == k)) = true := by simp [hc, hk]
        rw [hfilter, if_pos rfl, List.foldl_cons, ih]
        have hke : key a = k := eq_of_beq hk
        rw [hke, lookup_bumpAssoc_self, Option.getD_some]
      · have hkf : (key a == k) = false := by
          revert hk
          cases key a == k <;> simp
        have hfilter : (cond a && (key a == k)) = false := by
          simp [hkf]
        rw [hfilter, if_neg (by simp), ih]
        have hne : (k == key a) = false :=
          beq_eq_false_iff_ne.mpr (Ne.symm (beq_eq_false_iff_ne.mp hkf))
        rw [lookup_bumpAssoc_ne _ _ _ _ _ hne]
    · have hcf : cond a = false := by
        revert hc
        cases cond a <;> simp
      have hfilter : (cond a && (key a == k)) = false := by simp [hcf]
      rw [if_neg (by simp [hcf]), hfilter, if_neg (by simp), ih]

theorem mem_keys_foldl_generic {κ v α : Type} [BEq κ] [LawfulBEq κ]
    (step : List (κ × v) → α → List (κ × v)) (cond : α → Bool)
    (key : α → κ) (d : v) (upd : α → v → v)
    (hstep : ∀ m a, step m a =
      if cond a then bumpAssoc m (key a) d (upd a) else m)
    (l : List α) (m : List (κ × v)) (k : κ) :
    k ∈ (l.foldl step m).map Prod.fst ↔
      k ∈ m.map Prod.fst ∨ ∃ a ∈ l, cond a = true ∧ key a = k := by
  induction l generalizing m with
  | nil => simp
  | cons a l ih =>
    rw [List.foldl_cons, hstep]
    by_cases hc : cond a = true
    · rw [if_pos hc, ih]
      rw [mem_keys_bumpAssoc]
      constructor
      · intro h
        rcases h with (h | h) | h
        · exact Or.inl h
        · exact Or.inr ⟨a, List.mem_cons_self a l, hc, h.symm⟩
        · obtain ⟨b, hb, hcb, hkb⟩ := h
          exact Or.inr ⟨b, List.mem_cons_of_mem a hb, hcb, hkb⟩
      · intro h
        rcases h with h | ⟨b, hb, hcb, hkb⟩
        · exact Or.inl (Or.inl h)
        · rcases List.mem_cons.mp hb with rfl | hb'
          · exact Or.inl (Or.inr hkb.symm)
          · exact Or.inr ⟨b, hb', hcb, hkb⟩
    · have hcf : cond a = false := by
        revert hc
        cases cond a <;> simp
      rw [if_neg (by simp [hcf]), ih]
      constructor
      · intro h
        rcases h with h | ⟨b, hb, hcb, hkb⟩
        · exact Or.inl h
        · exact Or.inr ⟨b, List.mem_cons_of_mem a hb, hcb, hkb⟩
      · intro h
        rcases h with h | ⟨b, hb, hcb, hkb⟩
        · exact Or.inl h
        · rcases List.mem_cons.mp hb with rfl | hb'
          · rw [hcf] at hcb
            cases hcb
          · exact Or.inr ⟨b, hb', hcb, hkb⟩

theorem keysNodup_foldl_generic {κ v α : Type} [BEq κ] [LawfulBEq κ]
    (step : List (κ × v) → α → List (κ × v)) (cond : α → Bool)
    (key : α → κ) (d : v) (upd : α → v → v)
    (hstep : ∀ m a, step m a =
      if cond a then bumpAssoc m (key a) d (upd a) else m)
    (l : List α) (m : List (κ × v)) (h : KeysNodup m) :
    KeysNodup (l.foldl step m) := by
  induction l generalizing m with
  | nil => exact h
  | cons a l ih =>
    rw [List.foldl_cons, hstep]
    by_cases hc : cond a = true
    · rw [if_pos hc]
      exact ih _ (keysNodup_bumpAssoc m (key a) d (upd a) h)
    · have hcf : cond a = false := by
        revert hc
        cases cond a <;> simp
      rw [if_neg (by simp [hcf])]
      exact ih _ h

theorem aggStep_proj (s : AggState) (t : TxRec) :
    (aggStep s t).totalIncome =
      s.totalIncome + (if t.amount > 0 then t.amount else 0) ∧
    (aggStep s t).totalExpenses =
      s.totalExpenses + (if t.amount > 0 then 0 else t.amount) ∧
    (aggStep s t).categoryTotals = catStep s.categoryTotals t ∧
    (aggStep s t).merchantTotals = merchStep s.merchantTotals t ∧
    (aggStep s t).dailyTotals = dayStep s.dailyTotals t := by
  refine ⟨?_, ?_, ?_, ?_, ?_⟩ <;>
    (simp only [aggStep]
     split_ifs <;> simp)

theorem foldl_aggStep_proj (txs : List TxRec) (s : AggState) :
    (txs.foldl aggStep s).totalIncome = s.totalIncome +
      ((txs.filter (fun t => decide (t.amount > 0))).map
        (fun t => t.amount)).sum ∧
    (txs.foldl aggStep s).totalExpenses = s.totalExpenses +
      ((txs.filter (fun t => !decide (t.amount > 0))).map
        (fun t => t.amount)).sum ∧
    (txs.foldl aggStep s).categoryTotals =
      txs.foldl catStep s.categoryTotals ∧
    (txs.foldl aggStep s).merchantTotals =
      txs.foldl merchStep s.merchantTotals ∧
    (txs.foldl aggStep s).dailyTotals = txs.foldl dayStep s.dailyTotals := by
  induction txs generalizing s with
  | nil => simp
  | cons t txs ih =>
    obtain ⟨h1, h2, h3, h4, h5⟩ := ih (aggStep s t)
    obtain ⟨p1, p2, p3, p4, p5⟩ := aggStep_proj s t
    rw [List.foldl_cons]
    refine ⟨?_, ?_, ?_, ?_, ?_⟩
    · rw [h1, p1, List.filter_cons]
      by_cases hp : t.amount > 0
      · have hb : decide (t.amount > 0) = true := by simp [hp]
        rw [if_pos hp, hb, if_pos rfl, List.map_cons, List.sum_cons]
        omega
      · have hb : decide (t.amount > 0) = false := by simp [hp]
        rw [if_neg hp, hb, if_neg (by simp)]
        omega
    · rw [h2, p2, List.filter_cons]
      by_cases hp : t.amount > 0
      · have hb : decide (t.amount > 0) = true := by simp [hp]
        rw [if_pos hp, hb, if_neg (by simp)]
        omega
      · have hb : decide (t.amount > 0) = false := by simp [hp]
        rw [if_neg hp, hb, if_pos (by simp), List.map_cons, List.sum_cons]
        omega
    · rw [h3, p3, List.foldl_cons]
    · rw [h4, p4, List.foldl_cons]
    · rw [h5, p5, List.foldl_cons]

theorem insertByKeyDesc_perm {α : Type} (key : α → Nat) (x : α) (l : List α) :
    (insertByKeyDesc key x l).Perm (x :: l) := by
  induction l with
  | nil => exact List.Perm.refl _
  | cons y ys ih =>
    rw [insertByKeyDesc]
    by_cases h : key x > key y
    · simp [h]
    · simpa [h] using (ih.cons y).trans (List.Perm.swap x y ys)

theorem sortByKeyDesc_perm {α : Type} (key : α → Nat) (l : List α) :
    (sortByKeyDesc key l).Perm l := by
  induction l with
  | nil => exact List.Perm.refl _
  | cons x xs ih =>
    exact (insertByKeyDesc_perm key x (sortByKeyDesc key xs)).trans (ih.cons x)

theorem insertByKeyDesc_sorted {α : Type} {key : α → Nat} {x : α}
    {l : List α} (h : l.Sorted (fun a b => key a ≥ key b)) :
    (insertByKeyDesc key x l).Sorted (fun a b => key a ≥ key b) := by
  induction l with
  | nil => simp [insertByKeyDesc]
  | cons y ys ih =>
    rw [insertByKeyDesc]
    rw [List.sorted_cons] at h
    by_cases hp : key x > key y
    · rw [if_pos hp, List.sorted_cons]
      refine ⟨?_, List.sorted_cons.mpr h⟩
      intro b hb
      rcases List.mem_cons.mp hb with hb | hb
      · exact hb ▸ le_of_lt hp
      · exact le_trans (h.1 b hb) (le_of_lt hp)
    · rw [if_neg hp, List.sorted_cons]
      refine ⟨?_, ih h.2⟩
      intro b hb
      rcases List.mem_cons.mp ((insertByKeyDesc_perm key x ys).mem_iff.mp hb)
        with hb | hb
      · exact hb ▸ le_of_not_lt hp
      · exact h.1 b hb

theorem sortByKeyDesc_sorted {α : Type} (key : α → Nat) (l : List α) :
    (sortByKeyDesc key l).Sorted (fun a b => key a ≥ key b) := by
  induction l with
  | nil => simp [sortByKeyDesc]
  | cons x xs ih => exact insertByKeyDesc_sorted ih

theorem sum_map_filter_nonpos (txs : List TxRec) :
    ((txs.filter (fun t => !decide (t.amount > 0))).map
      (fun t => t.amount)).sum =
    ((txs.filter (fun t => decide (t.amount < 0))).map
      (fun t => t.amount)).sum := by
  induction txs with
  | nil => rfl
  | cons t ts ih =>
    rw [List.filter_cons, List.filter_cons]
    by_cases h0 : t.amount > 0
    · rw [if_neg (by simp [h0]), if_neg (by simp; omega)]
      exact ih
    · by_cases h1 : t.amount < 0
      · rw [if_pos (by simp [h0]), if_pos (by simp [h1]), List.map_cons,
          List.sum_cons, List.map_cons, List.sum_cons, ih]
      · rw [if_pos (by simp [h0]), if_neg (by simp [h1]), List.map_cons,
          List.sum_cons, ih]
        omega

theorem bumpAssoc_value_inv {κ v : Type} [BEq κ] {P : v → Prop}
    (m : List (κ × v)) (k : κ) (d : v) (f : v → v)
    (hd : P (f d)) (hf : ∀ w, P w → P (f w)) :
    (∀ kv ∈ m, P kv.2) → ∀ kv ∈ bumpAssoc m k d f, P kv.2 := by
  induction m with
  | nil =>
    intro _ kv hkv
    rw [bumpAssoc] at hkv
    have he := List.mem_singleton.mp hkv
    rw [he]
    exact hd
  | cons kv0 rest ih =>
    obtain ⟨k0, v0⟩ := kv0
    intro hm kv hkv
    rw [bumpAssoc] at hkv
    by_cases hk : (k0 == k) = true
    · rw [if_pos hk] at hkv
      rcases List.mem_cons.mp hkv with h | h
      · rw [h]
        exact hf v0 (hm (k0, v0) (List.mem_cons_self _ _))
      · exact hm kv (List.mem_cons_of_mem _ h)
    · rw [if_neg hk] at hkv
      rcases List.mem_cons.mp hkv with h | h
      · rw [h]
        exact hm (k0, v0) (List.mem_cons_self _ _)
      · exact ih (fun kv2 h2 => hm kv2 (List.mem_cons_of_mem _ h2)) kv h

theorem merchStep_foldl_neg (txs : List TxRec) :
    ∀ m0 : List (String × MerchTotals), (∀ kv ∈ m0, kv.2.amount < 0) →
      ∀ kv ∈ txs.foldl merchStep m0, kv.2.amount < 0 := by
  induction txs with
  | nil =>
    intro m0 hm kv hkv
    exact hm kv hkv
  | cons t ts ih =>
    intro m0 hm kv hkv
    rw [List.foldl_cons] at hkv
    refine ih (merchStep m0 t) ?_ kv hkv
    intro kv2 hkv2
    rw [merchStep] at hkv2
    by_cases hneg : t.amount < 0
    · rw [if_pos hneg] at hkv2
      refine bumpAssoc_value_inv (P := fun w => w.amount < 0) m0
        t.merchantNormalized ⟨0, 0, none⟩ (merchUpd t) ?_ ?_ hm kv2 hkv2
      · show (0 : Int) + t.amount < 0
        omega
      · intro w hw
        show w.amount + t.amount < 0
        omega
    · rw [if_neg hneg] at hkv2
      exact hm kv2 hkv2

/-- C10: for a frozen data set and every owner and month, getMonthlyOverview
returns totalIncome equal to the sum of the positive amounts and
totalExpenses equal to the sum of the negative amounts over the month's
non-split-parent transactions; every category-breakdown row is an expense
bucket, a null-category row is labelled Uncategorized, and its percentage is
the bucket's absolute amount over the absolute total expenses times 100; the
merchant breakdown holds expense merchants only, sorted by absolute amount
descending and cut to the top 10; and the daily series has one zero-filled
entry per day of the month carrying the day's sums. -/
theorem monthly_overview_C10 (categories : List (String × CategoryInfo))
    (docs : List TxRec) (uid : String) (y m : Nat) :
    (getMonthlyOverview categories docs uid y m 10).totalIncome =
      (((monthTxs docs uid y m).filter (fun t => decide (t.amount > 0))).map
        (fun t => t.amount)).sum ∧
    (getMonthlyOverview categories docs uid y m 10).totalExpenses =
      (((monthTxs docs uid y m).filter (fun t => decide (t.amount < 0))).map
        (fun t => t.amount)).sum ∧
    (getMonthlyOverview categories docs uid y m 10).netAmount =
      (getMonthlyOverview categories docs uid y m 10).totalIncome +
        (getMonthlyOverview categories docs uid y m 10).totalExpenses ∧
    (∀ row ∈ (getMonthlyOverview categories docs uid y m
        10).categoryBreakdown,
      row.totalAmount < 0 ∧
      (row.categoryId = none → row.categoryName = "Uncategorized") ∧
      ((getMonthlyOverview categories docs uid y m 10).totalExpenses ≠ 0 →
        row.percentageOfTotal =
          ((row.totalAmount.natAbs : ℚ) /
            (((getMonthlyOverview categories docs uid y m
              10).totalExpenses.natAbs : ℚ))) * 100)) ∧
    (getMonthlyOverview categories docs uid y m 10).topMerchants =
      (sortedMerchants categories docs uid y m).take 10 ∧
    (getMonthlyOverview categories docs uid y m 10).topMerchants.length ≤
      10 ∧
    (sortedMerchants categories docs uid y m).Sorted
      (fun a b => a.totalAmount.natAbs ≥ b.totalAmount.natAbs) ∧
    (∀ row ∈ (getMonthlyOverview categories docs uid y m 10).topMerchants,
      row.totalAmount < 0) ∧
    (getMonthlyOverview categories docs uid y m 10).dailySpending.length =
      daysInMonth y m ∧
    (∀ d, d < daysInMonth y m → ∃ v : DayTotals,
      (List.lookup (isoDate ⟨y, m, d + 1⟩)
        ((monthTxs docs uid y m).foldl dayStep [])).getD ⟨0, 0, 0⟩ = v ∧
      (getMonthlyOverview categories docs uid y m 10).dailySpending[d]? =
        some { date := isoDate ⟨y, m, d + 1⟩, income := v.income,
               expenses := v.expenses, net := v.income + v.expenses,
               transactionCount := v.count }) := by
  obtain ⟨h1, h2, h3, h4, h5⟩ :=
    foldl_aggStep_proj (monthTxs docs uid y m) emptyAgg
  have eInc : (getMonthlyOverview categories docs uid y m 10).totalIncome =
      ((monthTxs docs uid y m).foldl aggStep emptyAgg).totalIncome := rfl
  have eExp : (getMonthlyOverview categories docs uid y m 10).totalExpenses =
      ((monthTxs docs uid y m).foldl aggStep emptyAgg).totalExpenses := rfl
  have eCat : (getMonthlyOverview categories docs uid y m
      10).categoryBreakdown =
      sortByKeyDesc (fun e => e.totalAmount.natAbs)
        (categoryBreakdownRows categories
          (((monthTxs docs uid y m).foldl aggStep
            emptyAgg).totalExpenses.natAbs)
          (((monthTxs docs uid y m).foldl aggStep
            emptyAgg).categoryTotals)) := rfl
  have eTop : (getMonthlyOverview categories docs uid y m 10).topMerchants =
      (sortedMerchants categories docs uid y m).take 10 := rfl
  have eDay : (getMonthlyOverview categories docs uid y m 10).dailySpending =
      (List.range (daysInMonth y m)).map (fun d =>
        let key := isoDate ⟨y, m, d + 1⟩
        let v := (List.lookup key (((monthTxs docs uid y m).foldl aggStep
          emptyAgg).dailyTotals)).getD ⟨0, 0, 0⟩
        { date := key, income := v.income, expenses := v.expenses,
          net := v.income + v.expenses, transactionCount := v.count }) := rfl
  refine ⟨?_, ?_, rfl, ?_, eTop, ?_, ?_, ?_, ?_, ?_⟩
  · rw [eInc, h1]
    simp [emptyAgg]
  · rw [eExp, h2, sum_map_filter_nonpos]
    simp [emptyAgg]
  · intro row hrow
    rw [eCat] at hrow
    have hrow2 :=
      (sortByKeyDesc_perm
        (fun e : CategorySpending => e.totalAmount.natAbs) _).mem_iff.mp hrow
    rw [categoryBreakdownRows] at hrow2
    rcases List.mem_filterMap.mp hrow2 with ⟨kv, hkv, hf⟩
    by_cases hge : kv.2.amount ≥ 0
    · rw [if_pos hge] at hf
      exact absurd hf (by simp)
    · rw [if_neg hge] at hf
      injection hf with hf
      subst hf
      refine ⟨?_, ?_, ?_⟩
      · show kv.2.amount < 0
        omega
      · intro hnone
        have hk : kv.1 = none := hnone
        show ((lookupCategory categories kv.1).map
          (fun c => c.name)).getD "Uncategorized" = "Uncategorized"
        rw [hk]
        simp [lookupCategory, truthyStr]
      · intro hne
        have hpos : 0 < ((monthTxs docs uid y m).foldl aggStep
            emptyAgg).totalExpenses.natAbs := Int.natAbs_pos.mpr hne
        show (if ((monthTxs docs uid y m).foldl aggStep
              emptyAgg).totalExpenses.natAbs > 0 then
            ((kv.2.amount.natAbs : ℚ) /
              ((((monthTxs docs uid y m).foldl aggStep
                emptyAgg).totalExpenses.natAbs : ℚ))) * 100
          else 0) =
          ((kv.2.amount.natAbs : ℚ) /
            ((((monthTxs docs uid y m).foldl aggStep
              emptyAgg).totalExpenses.natAbs : ℚ))) * 100
        rw [if_pos hpos]
  · rw [eTop]
    exact List.length_take_le _ _
  · rw [sortedMerchants]
    exact sortByKeyDesc_sorted _ _
  · intro row hrow
    rw [eTop] at hrow
    have hrow1 : row ∈ sortedMerchants categories docs uid y m :=
      (List.take_sublist _ _).subset hrow
    rw [sortedMerchants] at hrow1
    have hrow2 :=
      (sortByKeyDesc_perm
        (fun e : MerchantSpending => e.totalAmount.natAbs) _).mem_iff.mp hrow1
    rw [merchantRows] at hrow2
    rcases List.mem_map.mp hrow2 with ⟨kv, hkv, hrw⟩
    have hmt : ((monthTxs docs uid y m).foldl aggStep
        emptyAgg).merchantTotals =
        (monthTxs docs uid y m).foldl merchStep [] := h4
    rw [hmt] at hkv
    have hneg : kv.2.amount < 0 :=
      merchStep_foldl_neg (monthTxs docs uid y m) []
        (fun kv2 h2x => absurd h2x (List.not_mem_nil kv2)) kv hkv
    subst hrw
    exact hneg
  · rw [eDay, List.length_map, List.length_range]
  · intro d hd
    have e : (getMonthlyOverview categories docs uid y m
        10).dailySpending[d]? =
        some
          { date := isoDate ⟨y, m, d + 1⟩
            income := ((List.lookup (isoDate ⟨y, m, d + 1⟩)
              (((monthTxs docs uid y m).foldl aggStep
                emptyAgg).dailyTotals)).getD ⟨0, 0, 0⟩).income
            expenses := ((List.lookup (isoDate ⟨y, m, d + 1⟩)
              (((monthTxs docs uid y m).foldl aggStep
                emptyAgg).dailyTotals)).getD ⟨0, 0, 0⟩).expenses
            net := ((List.lookup (isoDate ⟨y, m, d + 1⟩)
              (((monthTxs docs uid y m).foldl aggStep
                emptyAgg).dailyTotals)).getD ⟨0, 0, 0⟩).income +
              ((List.lookup (isoDate ⟨y, m, d + 1⟩)
                (((monthTxs docs uid y m).foldl aggStep
                  emptyAgg).dailyTotals)).getD ⟨0, 0, 0⟩).expenses
            transactionCount := ((List.lookup (isoDate ⟨y, m, d + 1⟩)
              (((monthTxs docs uid y m).foldl aggStep
                emptyAgg).dailyTotals)).getD ⟨0, 0, 0⟩).count } := by
      rw [eDay, List.getElem?_map, List.getElem?_range hd]
      rfl
    have h5p : ((monthTxs docs uid y m).foldl aggStep
        emptyAgg).dailyTotals =
        (monthTxs docs uid y m).foldl dayStep [] := h5
    rw [h5p] at e
    exact ⟨_, rfl, e⟩

/-- Closed instance of the C10 theorem: the daily series of an empty store
for 2024-01 has one entry per day of the month. -/
theorem monthly_overview_C10_witness :
    (getMonthlyOverview [] [] "u" 2024 1 10).dailySpending.length =
      daysInMonth 2024 1 :=
  (monthly_overview_C10 [] [] "u" 2024 1).2.2.2.2.2.2.2.2.1

end Spendabo
